import Mathlib

/-!
Verification of the SMTP-to-Telegram forwarder (`src/main.rs`).

The development shallowly embeds the protocol-relevant core of the program:

* the delivery dispatcher `send_to_telegram_internal` (message splitting at the
  4096-character Telegram limit, multi-part headers, truncation, per-chunk POSTs),
* the email extractor adapter `extract_text_from_email`,
* the per-connection SMTP session machine of `handle` (command dispatch,
  DATA-mode accumulation with dot-unstuffing, terminator handling).

Texts are `List Char` (Rust `char` = Unicode scalar value = Lean `Char`);
raw byte streams are `List Nat`.  Byte offsets into UTF-8 encoded text are
tracked explicitly via `Char.utf8Size`; Rust string slicing, which panics on
non-boundary offsets, is modelled by `Option`-returning functions where `none`
denotes a panic.  External collaborators (the `smtp_proto` command decoder,
the `mail_parser` MIME parser, the `ammonia` sanitizer, the HTTP client) are
parameters ("oracles") of the session machine, as in the specification.
-/

/-- Rust `char::is_whitespace`: the Unicode `White_Space` property. -/
def rustIsWhitespace (c : Char) : Bool :=
  let n := c.toNat
  (n == 0x09 || n == 0x0A || n == 0x0B || n == 0x0C || n == 0x0D || n == 0x20 ||
   n == 0x85 || n == 0xA0 || n == 0x1680 ||
   (decide (0x2000 ≤ n) && decide (n ≤ 0x200A)) ||
   n == 0x2028 || n == 0x2029 || n == 0x202F || n == 0x205F || n == 0x3000)

/-- Total UTF-8 byte length of a character list (Rust `str::len`). -/
def utf8Len (l : List Char) : Nat :=
  (l.map Char.utf8Size).sum

/-- Rust `str::trim`: strip leading and trailing Unicode whitespace. -/
def trimChars (l : List Char) : List Char :=
  ((l.dropWhile rustIsWhitespace).reverse.dropWhile rustIsWhitespace).reverse

/-- The character index whose UTF-8 byte offset is `i`, if `i` falls on a
character boundary of the encoded list; `none` models a Rust byte-index
panic (slicing or `split_at` at a non-boundary). -/
def byteToCharIdx : List Char → Nat → Option Nat
  | _, 0 => some 0
  | [], _ + 1 => none
  | c :: cs, i + 1 =>
    if c.utf8Size ≤ i + 1 then (byteToCharIdx cs (i + 1 - c.utf8Size)).map (· + 1)
    else none

/-- Rust `str::rfind`: byte offset of the start of the last character
satisfying `p`, if any. -/
def rfindByte (p : Char → Bool) : List Char → Option Nat
  | [] => none
  | c :: cs =>
    match rfindByte p cs with
    | some n => some (c.utf8Size + n)
    | none => if p c then some 0 else none

/-- Char index of the last element satisfying `p` (used to state the
claim's character-window variant of the split search). -/
def lastIdxWhere (p : Char → Bool) : List Char → Option Nat
  | [] => none
  | c :: cs =>
    match lastIdxWhere p cs with
    | some n => some (n + 1)
    | none => if p c then some 0 else none

/-- `MAX_MESSAGE_LENGTH` from `send_to_telegram_internal`. -/
def MAX_MESSAGE_LENGTH : Nat := 4096

/-- `max_byte_pos` of the splitting loop: the byte offset immediately after
the 4096th character (`char_indices().nth(4096)`, with `unwrap_or(len)`
giving the total byte length when there are at most 4096 characters). -/
def maxBytePosOf (remaining : List Char) : Nat :=
  utf8Len (remaining.take MAX_MESSAGE_LENGTH)

/-- `search_start = max_byte_pos.saturating_sub(500.min(max_byte_pos))`:
the byte offset 500 bytes before `max_byte_pos` (clamped at 0). -/
def searchStartOf (remaining : List Char) : Nat :=
  maxBytePosOf remaining - min 500 (maxBytePosOf remaining)

/-- The slice `remaining[search_start..max_byte_pos]` as characters, where
`k` is the character index corresponding to `search_start`. -/
def windowOf (remaining : List Char) (k : Nat) : List Char :=
  (remaining.take MAX_MESSAGE_LENGTH).drop k

/-- One iteration of the chunk-splitting loop of `send_to_telegram_internal`
(lines 241-282 of `main.rs`): returns the char index at which `remaining`
is split off, or `none` if a byte-slice offset falls inside a character
(a Rust panic).  Mirrors: slicing `remaining[search_start..max_byte_pos]`;
then `rfind('\n')`, else `rfind(char::is_whitespace)` (byte position + 1),
else `max_byte_pos`; finally `split_at(split_pos)`. -/
def splitStepIdx (remaining : List Char) : Option Nat :=
  match byteToCharIdx remaining (searchStartOf remaining) with
  | none => none
  | some k =>
    match rfindByte (fun c => c == '\n') (windowOf remaining k) with
    | some pos => byteToCharIdx remaining (searchStartOf remaining + pos + 1)
    | none =>
      match rfindByte rustIsWhitespace (windowOf remaining k) with
      | some pos => byteToCharIdx remaining (searchStartOf remaining + pos + 1)
      | none => byteToCharIdx remaining (maxBytePosOf remaining)

theorem byteToCharIdx_pos {l : List Char} {i j : Nat}
    (h : byteToCharIdx l i = some j) (hi : 1 ≤ i) : 1 ≤ j := by
  match l, i with
  | _, 0 => omega
  | [], i + 1 => simp [byteToCharIdx] at h
  | c :: cs, i + 1 =>
    rw [byteToCharIdx] at h
    by_cases hsz : c.utf8Size ≤ i + 1
    · simp only [if_pos hsz, Option.map_eq_some'] at h
      obtain ⟨j', _, rfl⟩ := h
      omega
    · simp [if_neg hsz] at h

theorem utf8Size_pos (c : Char) : 1 ≤ c.utf8Size := by
  have := Char.utf8Size_pos c
  omega

theorem utf8Len_cons (c : Char) (l : List Char) :
    utf8Len (c :: l) = c.utf8Size + utf8Len l := by
  simp [utf8Len]

theorem utf8Len_append (l₁ l₂ : List Char) :
    utf8Len (l₁ ++ l₂) = utf8Len l₁ + utf8Len l₂ := by
  simp [utf8Len]

theorem utf8Len_replicate (n : Nat) (c : Char) :
    utf8Len (List.replicate n c) = n * c.utf8Size := by
  induction n with
  | zero => simp [utf8Len]
  | succ m ih => simp [List.replicate_succ, utf8Len_cons, ih]; ring

theorem utf8Len_pos {l : List Char} (h : l ≠ []) : 1 ≤ utf8Len l := by
  match l with
  | [] => simp at h
  | c :: cs =>
    rw [utf8Len_cons]
    have := utf8Size_pos c
    omega

theorem maxBytePosOf_pos {remaining : List Char} (hne : remaining ≠ []) :
    1 ≤ maxBytePosOf remaining := by
  rw [maxBytePosOf]
  apply utf8Len_pos
  match remaining with
  | c :: cs =>
    show (c :: cs).take MAX_MESSAGE_LENGTH ≠ []
    rw [show MAX_MESSAGE_LENGTH = 4095 + 1 from rfl]
    simp

theorem splitStepIdx_pos {remaining : List Char} {j : Nat}
    (h : splitStepIdx remaining = some j) (hne : remaining ≠ []) : 1 ≤ j := by
  rw [splitStepIdx] at h
  rcases hb : byteToCharIdx remaining (searchStartOf remaining) with _ | k
  · rw [hb] at h; simp at h
  · rw [hb] at h
    simp only at h
    have hmbp := maxBytePosOf_pos hne
    rcases hn : rfindByte (fun c => c == '\n') (windowOf remaining k) with _ | pos
    · rw [hn] at h
      rcases hw : rfindByte rustIsWhitespace (windowOf remaining k) with _ | pos
      · rw [hw] at h
        exact byteToCharIdx_pos h (by omega)
      · rw [hw] at h
        exact byteToCharIdx_pos h (by omega)
    · rw [hn] at h
      exact byteToCharIdx_pos h (by omega)

theorem byteToCharIdx_sound {l : List Char} {b j : Nat}
    (h : byteToCharIdx l b = some j) :
    j ≤ l.length ∧ utf8Len (l.take j) = b := by
  induction l generalizing b j with
  | nil =>
    match b with
    | 0 =>
      simp only [byteToCharIdx, Option.some.injEq] at h
      subst h
      simp [utf8Len]
    | b + 1 => simp [byteToCharIdx] at h
  | cons c cs ih =>
    match b with
    | 0 =>
      simp only [byteToCharIdx, Option.some.injEq] at h
      subst h
      simp [utf8Len]
    | i + 1 =>
      rw [byteToCharIdx] at h
      by_cases hsz : c.utf8Size ≤ i + 1
      · simp only [if_pos hsz, Option.map_eq_some'] at h
        obtain ⟨j', hrec, rfl⟩ := h
        obtain ⟨hle, hlen⟩ := ih hrec
        refine ⟨by simpa using Nat.succ_le_succ hle, ?_⟩
        rw [List.take_succ_cons, utf8Len_cons, hlen]
        omega
      · simp [if_neg hsz] at h

theorem byteToCharIdx_complete {l : List Char} {j : Nat} (hj : j ≤ l.length) :
    byteToCharIdx l (utf8Len (l.take j)) = some j := by
  induction j generalizing l with
  | zero =>
    rw [List.take_zero]
    show byteToCharIdx l 0 = some 0
    cases l <;> rfl
  | succ j' ih =>
    match l with
    | c :: cs =>
      have hj' : j' ≤ cs.length := by simpa using hj
      rw [List.take_succ_cons, utf8Len_cons]
      have hsz := utf8Size_pos c
      obtain ⟨m, hm⟩ : ∃ m, c.utf8Size + utf8Len (cs.take j') = m + 1 :=
        ⟨c.utf8Size + utf8Len (cs.take j') - 1, by omega⟩
      rw [hm, byteToCharIdx]
      have hle : c.utf8Size ≤ m + 1 := by omega
      have harg : m + 1 - c.utf8Size = utf8Len (cs.take j') := by omega
      rw [if_pos hle, harg, ih hj']
      rfl

theorem utf8Len_take_add (l : List Char) (m n : Nat) :
    utf8Len (l.take (m + n)) = utf8Len (l.take m) + utf8Len ((l.drop m).take n) := by
  rw [List.take_add, utf8Len_append]

theorem utf8Len_take_mono (l : List Char) {i j : Nat} (h : i ≤ j) :
    utf8Len (l.take i) ≤ utf8Len (l.take j) := by
  have : j = i + (j - i) := by omega
  rw [this, utf8Len_take_add]
  omega

theorem utf8Len_take_strict (l : List Char) {i j : Nat} (hij : i < j)
    (hj : j ≤ l.length) :
    utf8Len (l.take i) < utf8Len (l.take j) := by
  have hJ : j = i + (j - i) := by omega
  rw [hJ, utf8Len_take_add]
  have hseg : (l.drop i).take (j - i) ≠ [] := by
    have hlen : ((l.drop i).take (j - i)).length = min (j - i) (l.length - i) := by
      simp
    intro hnil
    rw [hnil] at hlen
    simp at hlen
    omega
  have := utf8Len_pos hseg
  omega

theorem utf8Len_take_succ {l : List Char} {i : Nat} {c : Char}
    (h : l[i]? = some c) :
    utf8Len (l.take (i + 1)) = utf8Len (l.take i) + c.utf8Size := by
  rw [utf8Len_take_add l i 1]
  have hd : (l.drop i)[0]? = some c := by
    rw [List.getElem?_drop]
    simpa using h
  rcases he : l.drop i with _ | ⟨x, xs⟩
  · rw [he] at hd; simp at hd
  · rw [he] at hd
    simp only [List.getElem?_cons_zero, Option.some.injEq] at hd
    subst hd
    simp [he, utf8Len]

theorem rfindByte_exists {p : Char → Bool} {l : List Char} {n : Nat}
    (h : rfindByte p l = some n) : ∃ c ∈ l, p c = true := by
  induction l generalizing n with
  | nil => simp [rfindByte] at h
  | cons c cs ih =>
    rw [rfindByte] at h
    rcases hr : rfindByte p cs with _ | m
    · rw [hr] at h
      by_cases hc : p c
      · exact ⟨c, by simp, hc⟩
      · simp [hc] at h
    · obtain ⟨d, hd, hpd⟩ := ih hr
      exact ⟨d, by simp [hd], hpd⟩

theorem rfindByte_eq_none {p : Char → Bool} {l : List Char} :
    rfindByte p l = none ↔ ∀ c ∈ l, p c = false := by
  constructor
  · intro h c hc
    induction l with
    | nil => simp at hc
    | cons d ds ih =>
      rcases hr : rfindByte p ds with _ | m
      · rw [rfindByte, hr] at h
        by_cases hd : p d
        · simp [hd] at h
        · rcases List.mem_cons.mp hc with rfl | hmem
          · simpa using hd
          · exact ih hr hmem
      · rw [rfindByte, hr] at h
        simp at h
  · intro hall
    rcases h : rfindByte p l with _ | m
    · rfl
    · obtain ⟨c, hc, hpc⟩ := rfindByte_exists h
      rw [hall c hc] at hpc
      simp at hpc

theorem rfindByte_spec {p : Char → Bool} {l : List Char} {n : Nat}
    (h : rfindByte p l = some n) :
    ∃ i c, l[i]? = some c ∧ p c = true ∧ utf8Len (l.take i) = n ∧
      ∀ i' c', i < i' → l[i']? = some c' → p c' = false := by
  induction l generalizing n with
  | nil => simp [rfindByte] at h
  | cons c cs ih =>
    rw [rfindByte] at h
    rcases hr : rfindByte p cs with _ | m
    · rw [hr] at h
      by_cases hc : p c
      · simp only [hc, if_pos, Option.some.injEq] at h
        refine ⟨0, c, by simp, hc, by simp [utf8Len, ← h], ?_⟩
        intro i' c' hi' hget
        match i', hi' with
        | i'' + 1, _ =>
          rw [List.getElem?_cons_succ] at hget
          exact (rfindByte_eq_none.mp hr) c' (List.getElem?_mem hget)
      · simp [hc] at h
    · rw [hr] at h
      simp only [Option.some.injEq] at h
      obtain ⟨i, d, hget, hpd, hlen, hmax⟩ := ih hr
      refine ⟨i + 1, d, by simpa using hget, hpd, ?_, ?_⟩
      · rw [List.take_succ_cons, utf8Len_cons, hlen, ← h]
      · intro i' c' hi' hget'
        match i', hi' with
        | i'' + 1, hi' =>
          rw [List.getElem?_cons_succ] at hget'
          exact hmax i'' c' (by omega) hget'

theorem rfindByte_replicate_none {p : Char → Bool} {c : Char}
    (hc : p c = false) (n : Nat) : rfindByte p (List.replicate n c) = none := by
  induction n with
  | zero => rfl
  | succ m ih =>
    rw [List.replicate_succ, rfindByte, ih, hc]
    rfl

theorem byteToCharIdx_replicate_one {c : Char} (hc : c.utf8Size = 1)
    {i n : Nat} (h : i ≤ n) : byteToCharIdx (List.replicate n c) i = some i := by
  induction i generalizing n with
  | zero => cases n <;> rfl
  | succ i' ih =>
    match n, h with
    | n' + 1, h =>
      rw [List.replicate_succ, byteToCharIdx, hc]
      rw [if_pos (by omega)]
      have : i' + 1 - 1 = i' := by omega
      rw [this, ih (by omega)]
      rfl

theorem byteToCharIdx_replicate_not_dvd {c : Char} {i : Nat}
    (h : ¬ c.utf8Size ∣ i) (n : Nat) :
    byteToCharIdx (List.replicate n c) i = none := by
  induction n generalizing i with
  | zero =>
    have hi : i ≠ 0 := by rintro rfl; exact h (dvd_zero _)
    match i, hi with
    | i' + 1, _ => rfl
  | succ n' ih =>
    have hi : i ≠ 0 := by rintro rfl; exact h (dvd_zero _)
    match i, hi with
    | i' + 1, _ =>
      rw [List.replicate_succ, byteToCharIdx]
      by_cases hsz : c.utf8Size ≤ i' + 1
      · have hnd : ¬ c.utf8Size ∣ (i' + 1 - c.utf8Size) := by
          intro hd
          apply h
          have := Nat.dvd_add hd (dvd_refl c.utf8Size)
          rwa [Nat.sub_add_cancel hsz] at this
        rw [if_pos hsz, ih hnd]
        rfl
      · rw [if_neg hsz]

theorem lastIdxWhere_replicate_none {p : Char → Bool} {c : Char}
    (hc : p c = false) (n : Nat) : lastIdxWhere p (List.replicate n c) = none := by
  induction n with
  | zero => rfl
  | succ m ih =>
    rw [List.replicate_succ, lastIdxWhere, ih, hc]
    rfl

theorem lastIdxWhere_append (p : Char → Bool) (l₁ l₂ : List Char) :
    lastIdxWhere p (l₁ ++ l₂) =
      match lastIdxWhere p l₂ with
      | some n => some (l₁.length + n)
      | none => lastIdxWhere p l₁ := by
  induction l₁ with
  | nil =>
    simp only [List.nil_append, List.length_nil]
    rcases lastIdxWhere p l₂ with _ | n <;> simp [lastIdxWhere]
  | cons c cs ih =>
    rw [List.cons_append, lastIdxWhere, ih, lastIdxWhere]
    rcases h₂ : lastIdxWhere p l₂ with _ | n
    · rcases h₁ : lastIdxWhere p cs with _ | m <;> simp
    · simp only [List.length_cons]
      congr 1
      omega

/-- The chunk list computed by the splitting loop of
`send_to_telegram_internal` (`while !remaining.is_empty()` ...), or `none`
if a split-point computation panics. -/
def sendChunks (remaining : List Char) : Option (List (List Char)) :=
  if hne : remaining.isEmpty then some []
  else if remaining.length ≤ MAX_MESSAGE_LENGTH then some [remaining]
  else
    match h : splitStepIdx remaining with
    | none => none
    | some j =>
      (sendChunks (remaining.drop j)).map (fun rest => remaining.take j :: rest)
termination_by remaining.length
decreasing_by
  have hj : 1 ≤ j := splitStepIdx_pos h (by simpa [List.isEmpty_iff] using hne)
  have hlen : 1 ≤ remaining.length := by
    cases remaining
    · simp at hne
    · simp
  simp only [List.length_drop]
  omega

/-- Decimal digit as a character. -/
def digitChar (n : Nat) : Char := Char.ofNat (48 + n)

def natDigitsGo : Nat → Nat → List Char → List Char
  | 0, _, acc => acc
  | fuel + 1, n, acc =>
    if n < 10 then digitChar n :: acc
    else natDigitsGo fuel (n / 10) (digitChar (n % 10) :: acc)

/-- Decimal representation of `n`, as produced by Rust `format!` for `usize`. -/
def natDigits (n : Nat) : List Char := natDigitsGo (n + 1) n []

/-- The multi-part header `"[i/total]\n\n"` inserted by
`send_to_telegram_internal` (`format!("[{i}/{total}]\n\n", ..)`). -/
def chunkHeader (i total : Nat) : List Char :=
  ('[' :: natDigits i) ++ ('/' :: natDigits total) ++ [']', '\n', '\n']

/-- Per-chunk formatting (lines 285-303 of `main.rs`): with more than one
chunk the header is prepended (`i` is the 1-based index); if header +
content exceeds the limit, the content — never the header — is truncated
(`chunk.chars().take(MAX - prefix_len)`). -/
def formatChunk (i total : Nat) (chunk : List Char) : List Char :=
  let chunkText := if 1 < total then chunkHeader i total ++ chunk else chunk
  if MAX_MESSAGE_LENGTH < chunkText.length then
    chunkHeader i total ++ chunk.take (MAX_MESSAGE_LENGTH - (chunkHeader i total).length)
  else chunkText

/-- One outbound `sendMessage` POST: its `text` form field and the optional
`parse_mode` form field. -/
structure TgCall where
  text : List Char
  parseMode : Option (List Char)
  deriving DecidableEq

/-- Dispatcher failure outcomes: empty message precondition, or a
non-success HTTP response for the POST with the given 0-based index. -/
inductive SendErr where
  | emptyMessage
  | apiError (idx : Nat)
  deriving DecidableEq

/-- The per-chunk send loop (lines 285-343): POSTs chunks in order and
aborts on the first non-success response.  `httpOk i` is the HTTP oracle:
whether the `i`-th POST of this dispatch returns a success status. -/
def sendLoop (httpOk : Nat → Bool) (total : Nat) (pm : Option (List Char)) :
    Nat → List (List Char) → List TgCall × Option SendErr
  | _, [] => ([], none)
  | i, chunk :: rest =>
    if httpOk i then
      let r := sendLoop httpOk total pm (i + 1) rest
      (⟨formatChunk (i + 1) total chunk, pm⟩ :: r.1, r.2)
    else ([⟨formatChunk (i + 1) total chunk, pm⟩], some (SendErr.apiError i))

/-- `send_to_telegram_internal` (lines 194-346): the list of issued API
calls together with the error outcome, or `none` when the splitting
computation panics on a non-boundary byte offset. -/
def send_to_telegram_internal (httpOk : Nat → Bool) (text : List Char)
    (parse_mode : Option (List Char)) : Option (List TgCall × Option SendErr) :=
  if (trimChars text).isEmpty then some ([], some SendErr.emptyMessage)
  else if text.length ≤ MAX_MESSAGE_LENGTH then
    if httpOk 0 then some ([⟨text, parse_mode⟩], none)
    else some ([⟨text, parse_mode⟩], some (SendErr.apiError 0))
  else
    match sendChunks text with
    | none => none
    | some chunks => some (sendLoop httpOk chunks.length parse_mode 0 chunks)

/-- The content portion of a sent text: the inserted header (for the 0-based
chunk index `i`) stripped when more than one chunk was dispatched. -/
def stripIdxHeader (total i : Nat) (sent : List Char) : List Char :=
  if 1 < total then sent.drop (chunkHeader (i + 1) total).length else sent

def stripAllHeaders (total : Nat) : Nat → List TgCall → List (List Char)
  | _, [] => []
  | i, call :: rest => stripIdxHeader total i call.text :: stripAllHeaders total (i + 1) rest

/-- Concatenation of the content portions of all dispatched chunks (with
an always-successful HTTP oracle and no parse mode). -/
def dispatchedJoin (text : List Char) : Option (List Char) :=
  (send_to_telegram_internal (fun _ => true) text none).map
    (fun r => (stripAllHeaders r.1.length 0 r.1).flatten)

theorem sendChunks_flatten_aux :
    ∀ (n : Nat) (t : List Char), t.length ≤ n →
      ∀ cs, sendChunks t = some cs → cs.flatten = t ∧ ∀ c ∈ cs, c ≠ [] := by
  intro n
  induction n with
  | zero =>
    intro t ht cs h
    have hnil : t = [] := by
      cases t
      · rfl
      · simp at ht
    subst hnil
    rw [sendChunks] at h
    simp at h
    subst h
    simp
  | succ n' ih =>
    intro t ht cs h
    rw [sendChunks] at h
    by_cases hne : t.isEmpty
    · rw [dif_pos hne] at h
      simp only [Option.some.injEq] at h
      subst h
      simp [List.isEmpty_iff.mp hne]
    · rw [dif_neg hne] at h
      by_cases hle : t.length ≤ MAX_MESSAGE_LENGTH
      · rw [if_pos hle] at h
        simp only [Option.some.injEq] at h
        subst h
        simp [List.isEmpty_iff] at hne
        simp [hne]
      · rw [if_neg hle] at h
        rcases hs : splitStepIdx t with _ | j
        · rw [hs] at h; simp at h
        · rw [hs] at h
          simp only [Option.map_eq_some'] at h
          obtain ⟨rest, hrest, rfl⟩ := h
          have hj : 1 ≤ j :=
            splitStepIdx_pos hs (by simpa [List.isEmpty_iff] using hne)
          have hlen : (t.drop j).length ≤ n' := by
            simp only [List.length_drop]
            omega
          obtain ⟨hjoin, hnonnil⟩ := ih (t.drop j) hlen rest hrest
          constructor
          · rw [List.flatten_cons, hjoin, List.take_append_drop]
          · intro c hc
            rcases List.mem_cons.mp hc with rfl | hmem
            · intro hcontra
              have : j = 0 ∨ t = [] := by
                have := congrArg List.length hcontra
                simp at this
                rcases this with h1 | h1
                · exact Or.inl h1
                · exact Or.inr (by cases t; rfl; simp at h1)
              rcases this with h1 | h1
              · omega
              · rw [h1] at hne; simp at hne
            · exact hnonnil c hmem

theorem sendChunks_flatten {t : List Char} {cs : List (List Char)}
    (h : sendChunks t = some cs) : cs.flatten = t :=
  (sendChunks_flatten_aux t.length t le_rfl cs h).1

theorem sendChunks_ne_nil {t : List Char} {cs : List (List Char)}
    (h : sendChunks t = some cs) : ∀ c ∈ cs, c ≠ [] :=
  (sendChunks_flatten_aux t.length t le_rfl cs h).2

theorem length_le_flatten_length {cs : List (List Char)}
    (h : ∀ c ∈ cs, c ≠ []) : cs.length ≤ cs.flatten.length := by
  induction cs with
  | nil => simp
  | cons c rest ih =>
    rw [List.flatten_cons]
    have hc : c ≠ [] := h c (by simp)
    have h1 : 1 ≤ c.length := by
      cases c
      · simp at hc
      · simp
    have := ih (fun d hd => h d (by simp [hd]))
    simp only [List.length_cons, List.length_append]
    omega

/-- Split a character list at each `'\n'` (the underlying split of Rust
`str::lines`); always returns at least one (possibly empty) segment. -/
def splitOnNl : List Char → List (List Char)
  | [] => [[]]
  | c :: cs =>
    match splitOnNl cs with
    | [] => [[]]
    | s :: rest => if c = '\n' then [] :: s :: rest else (c :: s) :: rest

/-- Strip one trailing `'\r'` (the `\r\n` line-ending handling of
Rust `str::lines`). -/
def stripCr (l : List Char) : List Char :=
  if l.getLast? = some '\r' then l.dropLast else l

/-- Rust `str::lines`: split at `'\n'`, strip a trailing `'\r'` from every
terminated line, and drop the final segment when it is empty (a final line
ending is optional and produces no extra line). -/
def linesRust (b : List Char) : List (List Char) :=
  let segs := splitOnNl b
  let lastSeg := (segs.getLast?).getD []
  (segs.dropLast.map stripCr) ++ (if lastSeg.isEmpty then [] else [lastSeg])

/-- Rust `str::to_lowercase`, restricted to its ASCII action (content-type
tags, the only strings it is applied to, are ASCII). -/
def toLowerStr (l : List Char) : List Char := l.map Char.toLower

/-- The content type reported by the external MIME parser: main type
(`ctype()`) and optional subtype. -/
structure MimeContentType where
  ctype : List Char
  subtype : Option (List Char)
  deriving DecidableEq

/-- The result of the external `mail_parser` black box: content type,
subject, and the two body accessors `body_text(0)` / `body_html(0)`. -/
structure ParsedMsg where
  contentType : Option MimeContentType
  subject : Option (List Char)
  bodyText : Option (List Char)
  bodyHtml : Option (List Char)
  deriving DecidableEq

/-- The lowercased `"type/subtype"` tag computed from the parsed message
(`content_type().and_then(..)` in `extract_text_from_email`). -/
def contentTypeTag (msg : ParsedMsg) : Option (List Char) :=
  msg.contentType.bind fun ct =>
    ct.subtype.map fun sub => toLowerStr (ct.ctype ++ '/' :: sub)

def htmlTag : List Char := "text/html".data

/-- Body selection of `extract_text_from_email`: prefer the HTML body for
`text/html` content, otherwise the text body; without a content type,
prefer the text body and fall back to HTML. -/
def chosenBody (msg : ParsedMsg) : List Char :=
  match contentTypeTag msg with
  | some ct => if htmlTag.isPrefixOf ct then msg.bodyHtml.getD [] else msg.bodyText.getD []
  | none =>
    if !(msg.bodyText.getD []).isEmpty then msg.bodyText.getD []
    else msg.bodyHtml.getD []

/-- Body normalization of `extract_text_from_email`:
`body.lines().map(trim).filter(non-empty).join("\n")`. -/
def cleanedBodyOf (body : List Char) : List Char :=
  List.intercalate ['\n'] (((linesRust body).map trimChars).filter (fun l => !l.isEmpty))

/-- `extract_text_from_email` (lines 352-428): `mimeParse` is the external
MIME-parser oracle, `utf8Lossy` the `String::from_utf8_lossy` fallback
oracle used when parsing fails. -/
def extract_text_from_email (mimeParse : List Nat → Option ParsedMsg)
    (utf8Lossy : List Nat → List Char) (emailData : List Nat) :
    List Char × Option (List Char) :=
  match mimeParse emailData with
  | some msg =>
    let content_type := contentTypeTag msg
    let subject := msg.subject.getD []
    let body := chosenBody msg
    if !body.isEmpty then
      let cleaned_body := cleanedBodyOf body
      let cleaned :=
        if !subject.isEmpty then "Subject: ".data ++ subject ++ '\n' :: '\n' :: cleaned_body
        else cleaned_body
      (cleaned, content_type)
    else ([], content_type)
  | none => (utf8Lossy emailData, none)

/-- Modelled from the spec (§4.3): "Normalize body by splitting on line
breaks, trimming each line's surrounding whitespace, discarding lines that
become empty, and rejoining with single newlines."  Stated independently of
the Rust `lines()` iterator to compare against `cleanedBodyOf`. -/
def specNormalize (b : List Char) : List Char :=
  List.intercalate ['\n'] (((splitOnNl b).map trimChars).filter (fun l => !l.isEmpty))

/-- One decoded SMTP command, the output of the external `smtp_proto`
command decoder (`Request::parse`), restricted to the payloads `handle`
actually consumes. -/
inductive Request where
  | helo (host : List Char)
  | ehlo (host : List Char)
  | lhlo (host : List Char)
  | mail (sender : List Char)
  | rcpt (rcptAddr : List Char)
  | data
  | rset
  | quit
  | noop
  | vrfy
  | expn
  | help
  | starttls
  | auth
  | bdat
  | burl
  | etrn
  | atrn
  deriving DecidableEq

/-- Mutable state of one SMTP session inside `handle`: the envelope
(`mail_from`, `rcpt_to`), the DATA-mode flag and the accumulation buffer. -/
structure SessionState where
  mailFrom : Option (List Char)
  rcptTo : Option (List Char)
  inData : Bool
  buffer : List Nat
  deriving DecidableEq

def initialState : SessionState := ⟨none, none, false, []⟩

/-- External collaborators of one session: command decoder, MIME parser,
lossy UTF-8 decoding, HTML sanitizer, and HTTP response oracle. -/
structure Oracles where
  parseReq : List Nat → Option Request
  mimeParse : List Nat → Option ParsedMsg
  utf8Lossy : List Nat → List Char
  sanitize : List Char → List Char
  httpOk : Nat → Bool

/-- Result of processing one received line: continue with a new state
(emitting responses and outbound calls), quit, die on a command-parse
failure, or crash on a dispatcher panic. -/
inductive StepOut where
  | next (st : SessionState) (resps : List (Nat × List Char)) (calls : List TgCall)
  | quit (resps : List (Nat × List Char))
  | fatalParse
  | panic
  deriving DecidableEq

/-- The end-of-DATA test of `handle` (lines 451-455): the line is exactly
the three bytes `'.'`, CR, LF. -/
def isDataTerminator (line : List Nat) : Bool :=
  line.length == 3 && line.getD 0 0 == 46 && line.getD 1 0 == 13 && line.getD 2 0 == 10

/-- Dot-unstuffing of `handle` (lines 517-529): a CRLF-terminated line of
at least 3 bytes starting with two dots loses its first byte. -/
def unstuffDataLine (line : List Nat) : List Nat :=
  if decide (3 ≤ line.length) && line.getD 0 0 == 46 && line.getD 1 0 == 46
      && line.getD (line.length - 2) 0 == 13 && line.getD (line.length - 1) 0 == 10
  then line.drop 1 else line

/-- The end-of-DATA block of `handle` (lines 456-515): extract the message
from the buffer, pick the parse mode, prepend the `From:`/`To:` lines when
the envelope is set, and dispatch; delivery errors are only logged.
Returns the issued calls, or `none` when the dispatcher panics. -/
def processMessage (o : Oracles) (st : SessionState) : Option (List TgCall) :=
  let extracted := extract_text_from_email o.mimeParse o.utf8Lossy st.buffer
  let text := extracted.1
  let content_type := extracted.2
  if !text.isEmpty then
    let pm : Option (List Char) :=
      match content_type with
      | some ct => if htmlTag.isPrefixOf ct then some ("HTML".data) else none
      | none => none
    let processed_text :=
      match content_type with
      | some ct => if htmlTag.isPrefixOf ct then o.sanitize text else text
      | none => text
    let telegram_message :=
      match st.mailFrom, st.rcptTo with
      | some f, some t =>
        "From: ".data ++ f ++ "\nTo: ".data ++ t ++ '\n' :: '\n' :: processed_text
      | _, _ => processed_text
    match send_to_telegram_internal o.httpOk telegram_message pm with
    | none => none
    | some r => some r.1
  else some []

/-- The command dispatch table of `handle` (lines 544-671). -/
def commandStep (st : SessionState) : Request → StepOut
  | .helo host => .next st [(250, "Hello ".data ++ host)] []
  | .ehlo host => .next st [(250, "Hello ".data ++ host)] []
  | .lhlo host => .next st [(250, "Hello ".data ++ host)] []
  | .mail sender => .next { st with mailFrom := some sender } [(250, "OK".data)] []
  | .rcpt rcptAddr => .next { st with rcptTo := some rcptAddr } [(250, "OK".data)] []
  | .data =>
    if st.mailFrom.isNone || st.rcptTo.isNone then
      .next st [(503, "Need MAIL and RCPT first".data)] []
    else
      .next { st with inData := true, buffer := [] }
        [(354, "End data with <CR><LF>.<CR><LF>".data)] []
  | .rset =>
    .next { st with mailFrom := none, rcptTo := none, buffer := [] } [(250, "OK".data)] []
  | .quit => .quit [(221, "Bye".data)]
  | .noop => .next st [(250, "OK".data)] []
  | .vrfy => .next st [(502, "Command not implemented".data)] []
  | .expn => .next st [(502, "Command not implemented".data)] []
  | .help => .next st [(214, "Help text".data)] []
  | .starttls => .next st [(502, "TLS not supported".data)] []
  | .auth => .next st [(502, "Auth not supported".data)] []
  | .bdat => .next st [(502, "Command not implemented".data)] []
  | .burl => .next st [(502, "Command not implemented".data)] []
  | .etrn => .next st [(502, "Command not implemented".data)] []
  | .atrn => .next st [(502, "Command not implemented".data)] []

/-- Processing of one received line by the loop of `handle`. -/
def sessionStep (o : Oracles) (st : SessionState) (line : List Nat) : StepOut :=
  if st.inData then
    if isDataTerminator line then
      match processMessage o st with
      | none => .panic
      | some calls =>
        .next { mailFrom := none, rcptTo := none, inData := false, buffer := [] }
          [(250, "OK".data)] calls
    else
      .next { st with buffer := st.buffer ++ unstuffDataLine line } [] []
  else
    match o.parseReq line with
    | none => .fatalParse
    | some req => commandStep st req

/-- Run the session loop over a list of received lines, collecting
responses and outbound calls; stops at QUIT, a fatal parse error, a panic,
or the end of input. -/
def runLoop (o : Oracles) :
    SessionState → List (List Nat) → List (Nat × List Char) × List TgCall
  | _, [] => ([], [])
  | st, line :: rest =>
    match sessionStep o st line with
    | .next st' resps calls =>
      let r := runLoop o st' rest
      (resps ++ r.1, calls ++ r.2)
    | .quit resps => (resps, [])
    | .fatalParse => ([], [])
    | .panic => ([], [])

/-- A whole session of `handle`: the 220 greeting followed by the loop. -/
def runSession (o : Oracles) (lines : List (List Nat)) :
    List (Nat × List Char) × List TgCall :=
  let r := runLoop o initialState lines
  ((220, "SMTP to Telegram Service Ready".data) :: r.1, r.2)

/-- UTF-8 bytes of an ASCII string (all session fixtures are ASCII). -/
def bytesOf (s : String) : List Nat := s.data.map Char.toNat

/-- Oracles whose command decoder always fails and whose MIME parser never
parses (the lossy fallback yields empty text). -/
def trivOracles : Oracles :=
  ⟨fun _ => none, fun _ => none, fun _ => [], fun t => t, fun _ => true⟩

/-- Oracles whose command decoder always yields `DATA`. -/
def dataOracles : Oracles :=
  ⟨fun _ => some .data, fun _ => none, fun _ => [], fun t => t, fun _ => true⟩

/-- Concrete command-decoder oracle for the end-to-end session fixture. -/
def c2parse : List Nat → Option Request := fun line =>
  if line = bytesOf "HELO a\r\n" then some (.helo ("a".data))
  else if line = bytesOf "MAIL FROM:<x@y>\r\n" then some (.mail ("x@y".data))
  else if line = bytesOf "RCPT TO:<z@w>\r\n" then some (.rcpt ("z@w".data))
  else if line = bytesOf "DATA\r\n" then some .data
  else none

/-- The MIME parse of the one-line body `"Hello\r\n"`: no content type, no
subject, text body `"Hello"`. -/
def helloMsg : ParsedMsg := ⟨none, none, some ("Hello".data), none⟩

/-- Concrete MIME-parser oracle for the end-to-end session fixture. -/
def c2mime : List Nat → Option ParsedMsg := fun d =>
  if d = bytesOf "Hello\r\n" then some helloMsg else none

def c2oracles : Oracles := ⟨c2parse, c2mime, fun _ => [], fun t => t, fun _ => true⟩

def c2lines : List (List Nat) :=
  [bytesOf "HELO a\r\n", bytesOf "MAIL FROM:<x@y>\r\n", bytesOf "RCPT TO:<z@w>\r\n",
   bytesOf "DATA\r\n", bytesOf "Hello\r\n", bytesOf ".\r\n"]

/-- A MIME-parser oracle returning a message with a non-empty subject and
empty bodies. -/
def c9mime : List Nat → Option ParsedMsg := fun _ =>
  some ⟨none, some ("s".data), some [], none⟩

/-- Modelled from the claim's words (C3): the split-point rule with the
window measured as the last 500 characters before the 4096-character
offset — split just after the last newline in that character window, else
just after the last whitespace character, else at the 4096th character. -/
def claimSplitIdx (t : List Char) : Option Nat :=
  if t.length ≤ MAX_MESSAGE_LENGTH then none
  else
    match lastIdxWhere (fun c => c == '\n')
        ((t.take MAX_MESSAGE_LENGTH).drop (MAX_MESSAGE_LENGTH - 500)) with
    | some n => some (MAX_MESSAGE_LENGTH - 500 + n + 1)
    | none =>
      match lastIdxWhere rustIsWhitespace
          ((t.take MAX_MESSAGE_LENGTH).drop (MAX_MESSAGE_LENGTH - 500)) with
      | some n => some (MAX_MESSAGE_LENGTH - 500 + n + 1)
      | none => some MAX_MESSAGE_LENGTH

/-- Splitting fixture: a newline 496 characters (but 991 bytes) before the
4096-character offset, followed by two-byte characters only. -/
def c3text : List Char :=
  List.replicate 3600 'a' ++ '\n' :: (List.replicate 495 'é' ++ List.replicate 2 'b')

/-- Splitting fixture: 4097 three-byte characters, for which the 500-byte
window start falls inside a character. -/
def c10text : List Char := List.replicate 4097 '€'

theorem getD_append_len (X : List Nat) (a b : Nat) :
    (X ++ [a, b]).getD X.length 0 = a ∧ (X ++ [a, b]).getD (X.length + 1) 0 = b := by
  induction X with
  | nil => exact ⟨rfl, rfl⟩
  | cons x xs ih => simpa [List.getD_cons_succ] using ih

theorem unstuff_double_dot (X : List Nat) :
    unstuffDataLine (46 :: 46 :: (X ++ [13, 10])) = 46 :: (X ++ [13, 10]) := by
  rw [unstuffDataLine]
  have e2 : (46 :: 46 :: (X ++ [13, 10])).length - 2 = X.length + 2 := by
    simp only [List.length_cons, List.length_append, List.length_nil]
    omega
  have e1 : (46 :: 46 :: (X ++ [13, 10])).length - 1 = X.length + 3 := by
    simp only [List.length_cons, List.length_append, List.length_nil]
    omega
  have e0 : (46 :: 46 :: (X ++ [13, 10])).length = X.length + 4 := by
    simp only [List.length_cons, List.length_append, List.length_nil] <;> omega
  rw [e2, e1, e0]
  split
  · rfl
  · rename_i hcond
    exfalso
    apply hcond
    have g0 : (46 :: 46 :: (X ++ [13, 10])).getD 0 0 = 46 := rfl
    have g1 : (46 :: 46 :: (X ++ [13, 10])).getD 1 0 = 46 := rfl
    have g2 : (46 :: 46 :: (X ++ [13, 10])).getD (X.length + 2) 0 = 13 := by
      show (X ++ [13, 10]).getD X.length 0 = 13
      exact (getD_append_len X 13 10).1
    have g3 : (46 :: 46 :: (X ++ [13, 10])).getD (X.length + 3) 0 = 10 := by
      show (X ++ [13, 10]).getD (X.length + 1) 0 = 10
      exact (getD_append_len X 13 10).2
    rw [g0, g1, g2, g3]
    simp only [beq_self_eq_true, Bool.and_true, decide_eq_true_eq]
    omega

theorem terminator_false_of_long (y1 y2 : Nat) (Z : List Nat) :
    isDataTerminator (y1 :: y2 :: (Z ++ [13, 10])) = false := by
  rw [isDataTerminator]
  have hlen3 : ((y1 :: y2 :: (Z ++ [13, 10])).length == 3) = false := by
    rw [beq_eq_false_iff_ne]
    simp only [List.length_cons, List.length_append, List.length_nil]
    omega
  rw [hlen3]
  rfl

/-- C5: in data mode, a line `".." ++ X ++ CRLF` contributes exactly
`"." ++ X ++ CRLF` to the buffer (leading dot stripped, CRLF kept); the
line that is exactly `"." ++ CRLF` is recognized as the terminator (ending
data mode with a cleared buffer, so it is never appended), and every other
CRLF-terminated line is appended verbatim. -/
theorem data_mode_line_classification :
    (∀ X : List Nat,
        unstuffDataLine (46 :: 46 :: (X ++ [13, 10])) = 46 :: (X ++ [13, 10]) ∧
        isDataTerminator (46 :: 46 :: (X ++ [13, 10])) = false) ∧
    isDataTerminator [46, 13, 10] = true ∧
    (∀ Y : List Nat, (∀ X, Y ≠ 46 :: 46 :: X) → Y ≠ [46] →
        unstuffDataLine (Y ++ [13, 10]) = Y ++ [13, 10] ∧
        isDataTerminator (Y ++ [13, 10]) = false) ∧
    (∀ (o : Oracles) (st : SessionState) (line : List Nat),
        st.inData = true → isDataTerminator line = false →
        sessionStep o st line =
          .next { st with buffer := st.buffer ++ unstuffDataLine line } [] []) ∧
    (∀ (o : Oracles) (st : SessionState), st.inData = true →
        sessionStep o st [46, 13, 10] = .panic ∨
        ∃ calls, sessionStep o st [46, 13, 10] =
          .next { mailFrom := none, rcptTo := none, inData := false, buffer := [] }
            [(250, "OK".data)] calls) := by
  refine ⟨?_, rfl, ?_, ?_, ?_⟩
  · intro X
    exact ⟨unstuff_double_dot X, terminator_false_of_long 46 46 X⟩
  · intro Y hY hY1
    match Y, hY, hY1 with
    | [], _, _ => exact ⟨rfl, rfl⟩
    | [y], _, hY1 =>
      have hy : y ≠ 46 := by
        intro h
        exact hY1 (by rw [h])
      constructor
      · rw [List.cons_append, List.nil_append, unstuffDataLine]
        split
        · rename_i hcond
          exfalso
          simp only [List.length_cons, List.length_nil, List.getD_cons_zero,
            List.getD_cons_succ, Bool.and_eq_true, beq_iff_eq, decide_eq_true_eq] at hcond
          omega
        · rfl
      · rw [List.cons_append, List.nil_append, isDataTerminator]
        simp [hy]
    | y1 :: y2 :: ys, hY, _ =>
      have hnot : ¬(y1 = 46 ∧ y2 = 46) := by
        rintro ⟨rfl, rfl⟩
        exact hY ys rfl
      rw [List.cons_append, List.cons_append]
      constructor
      · rw [unstuffDataLine]
        split
        · rename_i hcond
          exfalso
          simp only [List.getD_cons_zero, List.getD_cons_succ, Bool.and_eq_true,
            beq_iff_eq, decide_eq_true_eq] at hcond
          exact hnot ⟨hcond.1.1.1.2, hcond.1.1.2⟩
        · rfl
      · exact terminator_false_of_long y1 y2 ys
  · intro o st line hd ht
    rw [sessionStep, if_pos hd, if_neg (by rw [ht]; exact Bool.false_ne_true)]
  · intro o st hd
    rcases hp : processMessage o st with _ | calls
    · left
      rw [sessionStep, if_pos hd,
        if_pos (show isDataTerminator [46, 13, 10] = true from rfl), hp]
    · right
      exact ⟨calls, by rw [sessionStep, if_pos hd,
        if_pos (show isDataTerminator [46, 13, 10] = true from rfl), hp]⟩

/-- Witness for C5: concrete instances of each classification case
(`"..H" ++ CRLF` unstuffed, `"Hi" ++ CRLF` verbatim, a data-mode append
step, and a terminator step). -/
theorem data_mode_line_classification_witness :
    (unstuffDataLine (46 :: 46 :: ([72] ++ [13, 10])) = 46 :: ([72] ++ [13, 10])) ∧
    (unstuffDataLine ([72, 105] ++ [13, 10]) = [72, 105] ++ [13, 10]) ∧
    (isDataTerminator ([72, 105] ++ [13, 10]) = false) ∧
    (sessionStep trivOracles ⟨some ("x".data), some ("y".data), true, []⟩ [72, 105, 13, 10] =
      .next { (⟨some ("x".data), some ("y".data), true, []⟩ : SessionState) with
          buffer := ([] : List Nat) ++ unstuffDataLine [72, 105, 13, 10] } [] []) ∧
    (sessionStep trivOracles ⟨some ("x".data), some ("y".data), true, []⟩ [46, 13, 10] = .panic ∨
      ∃ calls, sessionStep trivOracles ⟨some ("x".data), some ("y".data), true, []⟩ [46, 13, 10] =
        .next { mailFrom := none, rcptTo := none, inData := false, buffer := [] }
          [(250, "OK".data)] calls) := by
  refine ⟨(data_mode_line_classification.1 [72]).1, ?_, ?_, ?_, ?_⟩
  · exact (data_mode_line_classification.2.2.1 [72, 105]
      (by intro X h; simp at h) (by simp)).1
  · exact (data_mode_line_classification.2.2.1 [72, 105]
      (by intro X h; simp at h) (by simp)).2
  · exact data_mode_line_classification.2.2.2.1 trivOracles
      ⟨some ("x".data), some ("y".data), true, []⟩ [72, 105, 13, 10] rfl (by decide)
  · exact data_mode_line_classification.2.2.2.2 trivOracles
      ⟨some ("x".data), some ("y".data), true, []⟩ rfl

/-- C6: once the data-mode terminator line is received, the session
responds 250 OK and clears the buffer and the whole envelope, whatever the
oracles (extraction outcome, HTTP outcome) did; delivery failures never
change the SMTP response. -/
theorem terminator_always_250 (o : Oracles) (st : SessionState) (line : List Nat)
    (st' : SessionState) (resps : List (Nat × List Char)) (calls : List TgCall)
    (hd : st.inData = true) (ht : isDataTerminator line = true)
    (h : sessionStep o st line = .next st' resps calls) :
    resps = [(250, "OK".data)] ∧
    st' = { mailFrom := none, rcptTo := none, inData := false, buffer := [] } := by
  rw [sessionStep, if_pos hd, if_pos ht] at h
  rcases hp : processMessage o st with _ | calls'
  · rw [hp] at h
    simp at h
  · rw [hp] at h
    simp only [StepOut.next.injEq] at h
    obtain ⟨rfl, rfl, rfl⟩ := h
    exact ⟨rfl, rfl⟩

/-- Witness for C6 at a concrete in-data state and the terminator line. -/
theorem terminator_always_250_witness :
    [((250 : Nat), "OK".data)] = [(250, "OK".data)] ∧
    ({ mailFrom := none, rcptTo := none, inData := false, buffer := [] } : SessionState) =
      { mailFrom := none, rcptTo := none, inData := false, buffer := [] } :=
  terminator_always_250 trivOracles ⟨some ("x".data), some ("y".data), true, bytesOf "Hi\r\n"⟩
    [46, 13, 10] ⟨none, none, false, []⟩ [(250, "OK".data)] [] rfl (by decide) (by rfl)

/-- C7: a DATA command with an incomplete envelope draws a 503 response and
leaves the whole state (in particular the buffer, which is empty whenever
the session is in command mode) unchanged, without entering data mode;
with both addresses set, DATA clears the buffer, enters data mode and
draws 354.  The third conjunct is the preserved invariant that the buffer
is empty outside data mode, and the fourth its base case. -/
theorem data_requires_envelope :
    (∀ (o : Oracles) (st : SessionState) (line : List Nat),
        st.inData = false → o.parseReq line = some Request.data →
        st.mailFrom = none ∨ st.rcptTo = none →
        sessionStep o st line = .next st [(503, "Need MAIL and RCPT first".data)] []) ∧
    (∀ (o : Oracles) (st : SessionState) (line : List Nat) (f r : List Char),
        st.inData = false → o.parseReq line = some Request.data →
        st.mailFrom = some f → st.rcptTo = some r →
        sessionStep o st line =
          .next { st with inData := true, buffer := [] }
            [(354, "End data with <CR><LF>.<CR><LF>".data)] []) ∧
    (∀ (o : Oracles) (st : SessionState) (line : List Nat) (st' : SessionState)
        (resps : List (Nat × List Char)) (calls : List TgCall),
        (st.inData = false → st.buffer = []) →
        sessionStep o st line = .next st' resps calls →
        (st'.inData = false → st'.buffer = [])) ∧
    initialState.buffer = [] := by
  refine ⟨?_, ?_, ?_, rfl⟩
  · intro o st line h1 h2 h3
    rw [sessionStep, if_neg (by rw [h1]; exact Bool.false_ne_true), h2]
    show commandStep st Request.data = _
    rw [commandStep, if_pos]
    rcases h3 with h3 | h3 <;> simp [h3]
  · intro o st line f r h1 h2 hf hr
    rw [sessionStep, if_neg (by rw [h1]; exact Bool.false_ne_true), h2]
    show commandStep st Request.data = _
    rw [commandStep, if_neg]
    simp [hf, hr]
  · intro o st line st' resps calls hst h
    rw [sessionStep] at h
    by_cases hd : st.inData
    · rw [if_pos hd] at h
      by_cases ht : isDataTerminator line
      · rw [if_pos ht] at h
        rcases hp : processMessage o st with _ | calls'
        · rw [hp] at h
          simp at h
        · rw [hp] at h
          simp only [StepOut.next.injEq] at h
          obtain ⟨rfl, -, -⟩ := h
          intro
          rfl
      · rw [if_neg ht] at h
        simp only [StepOut.next.injEq] at h
        obtain ⟨rfl, -, -⟩ := h
        intro hfd
        simp at hfd
        rw [hfd] at hd
        exact absurd hd (by simp)
    · rw [if_neg hd] at h
      rcases hr : o.parseReq line with _ | req
      · rw [hr] at h
        simp at h
      · rw [hr] at h
        simp only at h
        cases req with
        | data =>
          rw [commandStep] at h
          by_cases hcond : (st.mailFrom.isNone || st.rcptTo.isNone) = true
          · rw [if_pos hcond] at h
            simp only [StepOut.next.injEq] at h
            obtain ⟨rfl, -, -⟩ := h
            exact hst
          · rw [if_neg hcond] at h
            simp only [StepOut.next.injEq] at h
            obtain ⟨rfl, -, -⟩ := h
            intro
            rfl
        | helo host =>
          rw [commandStep] at h
          simp only [StepOut.next.injEq] at h
          obtain ⟨rfl, -, -⟩ := h
          exact hst
        | ehlo host =>
          rw [commandStep] at h
          simp only [StepOut.next.injEq] at h
          obtain ⟨rfl, -, -⟩ := h
          exact hst
        | lhlo host =>
          rw [commandStep] at h
          simp only [StepOut.next.injEq] at h
          obtain ⟨rfl, -, -⟩ := h
          exact hst
        | mail sender =>
          rw [commandStep] at h
          simp only [StepOut.next.injEq] at h
          obtain ⟨rfl, -, -⟩ := h
          intro hfd
          simp only at hfd
          exact hst (by simpa using hfd)
        | rcpt rcptAddr =>
          rw [commandStep] at h
          simp only [StepOut.next.injEq] at h
          obtain ⟨rfl, -, -⟩ := h
          intro hfd
          simp only at hfd
          exact hst (by simpa using hfd)
        | rset =>
          rw [commandStep] at h
          simp only [StepOut.next.injEq] at h
          obtain ⟨rfl, -, -⟩ := h
          intro
          rfl
        | quit =>
          rw [commandStep] at h
          simp at h
        | noop =>
          rw [commandStep] at h
          simp only [StepOut.next.injEq] at h
          obtain ⟨rfl, -, -⟩ := h
          exact hst
        | vrfy =>
          rw [commandStep] at h
          simp only [StepOut.next.injEq] at h
          obtain ⟨rfl, -, -⟩ := h
          exact hst
        | expn =>
          rw [commandStep] at h
          simp only [StepOut.next.injEq] at h
          obtain ⟨rfl, -, -⟩ := h
          exact hst
        | help =>
          rw [commandStep] at h
          simp only [StepOut.next.injEq] at h
          obtain ⟨rfl, -, -⟩ := h
          exact hst
        | starttls =>
          rw [commandStep] at h
          simp only [StepOut.next.injEq] at h
          obtain ⟨rfl, -, -⟩ := h
          exact hst
        | auth =>
          rw [commandStep] at h
          simp only [StepOut.next.injEq] at h
          obtain ⟨rfl, -, -⟩ := h
          exact hst
        | bdat =>
          rw [commandStep] at h
          simp only [StepOut.next.injEq] at h
          obtain ⟨rfl, -, -⟩ := h
          exact hst
        | burl =>
          rw [commandStep] at h
          simp only [StepOut.next.injEq] at h
          obtain ⟨rfl, -, -⟩ := h
          exact hst
        | etrn =>
          rw [commandStep] at h
          simp only [StepOut.next.injEq] at h
          obtain ⟨rfl, -, -⟩ := h
          exact hst
        | atrn =>
          rw [commandStep] at h
          simp only [StepOut.next.injEq] at h
          obtain ⟨rfl, -, -⟩ := h
          exact hst

/-- Witness for C7: DATA with a sender but no recipient is refused with
503 on an unchanged state; with both set it enters data mode; the
invariant instance holds at the initial state. -/
theorem data_requires_envelope_witness :
    (sessionStep dataOracles ⟨some ("x".data), none, false, []⟩ [] =
      .next ⟨some ("x".data), none, false, []⟩ [(503, "Need MAIL and RCPT first".data)] []) ∧
    (sessionStep dataOracles ⟨some ("x".data), some ("y".data), false, []⟩ [] =
      .next { (⟨some ("x".data), some ("y".data), false, []⟩ : SessionState) with
          inData := true, buffer := [] }
        [(354, "End data with <CR><LF>.<CR><LF>".data)] []) ∧
    ((⟨some ("x".data), none, false, []⟩ : SessionState).inData = false →
      (⟨some ("x".data), none, false, []⟩ : SessionState).buffer = []) ∧
    initialState.buffer = [] := by
  refine ⟨?_, ?_, ?_, data_requires_envelope.2.2.2⟩
  · exact data_requires_envelope.1 dataOracles ⟨some ("x".data), none, false, []⟩ []
      rfl rfl (Or.inr rfl)
  · exact data_requires_envelope.2.1 dataOracles ⟨some ("x".data), some ("y".data), false, []⟩ []
      ("x".data) ("y".data) rfl rfl rfl rfl
  · exact data_requires_envelope.2.2.1 dataOracles ⟨some ("x".data), none, false, []⟩ []
      ⟨some ("x".data), none, false, []⟩ [(503, "Need MAIL and RCPT first".data)] []
      (fun _ => rfl) (data_requires_envelope.1 dataOracles ⟨some ("x".data), none, false, []⟩ []
        rfl rfl (Or.inr rfl))

/-- C8: text that is empty after whitespace trimming makes the dispatcher
fail with `EmptyMessage`; no HTTP request is issued. -/
theorem empty_message_no_request (httpOk : Nat → Bool) (text : List Char)
    (pm : Option (List Char)) (h : (trimChars text).isEmpty = true) :
    send_to_telegram_internal httpOk text pm = some ([], some SendErr.emptyMessage) := by
  rw [send_to_telegram_internal, if_pos h]

/-- Witness for C8 at a whitespace-only text. -/
theorem empty_message_no_request_witness :
    (trimChars [' ', '\t']).isEmpty = true ∧
    send_to_telegram_internal (fun _ => true) [' ', '\t'] none =
      some ([], some SendErr.emptyMessage) :=
  ⟨by decide, empty_message_no_request _ _ _ (by decide)⟩

theorem natDigitsGo_length_le :
    ∀ (fuel n : Nat) (acc : List Char) (k : Nat), n < fuel → n < 10 ^ k → 1 ≤ k →
      (natDigitsGo fuel n acc).length ≤ k + acc.length := by
  intro fuel
  induction fuel with
  | zero =>
    intro n acc k hfuel
    omega
  | succ f ih =>
    intro n acc k hfuel hk hk1
    rw [natDigitsGo]
    by_cases h10 : n < 10
    · rw [if_pos h10]
      simp only [List.length_cons]
      omega
    · rw [if_neg h10]
      have hkk : 2 ≤ k := by
        match k, hk1 with
        | 1, _ =>
          norm_num at hk
          omega
        | k + 2, _ => omega
      have hdiv : n / 10 < 10 ^ (k - 1) := by
        rw [Nat.div_lt_iff_lt_mul (by norm_num)]
        calc n < 10 ^ k := hk
          _ = 10 ^ (k - 1) * 10 := by
              rw [← pow_succ]
              congr 1
              omega
      have hfuel' : n / 10 < f := by
        have h1 : n / 10 < n := Nat.div_lt_self (by omega) (by norm_num)
        omega
      have hrec := ih (n / 10) (digitChar (n % 10) :: acc) (k - 1) hfuel' hdiv (by omega)
      simp only [List.length_cons] at hrec
      omega

theorem natDigits_length_le {n k : Nat} (hk : n < 10 ^ k) (h1 : 1 ≤ k) :
    (natDigits n).length ≤ k := by
  have := natDigitsGo_length_le (n + 1) n [] k (by omega) hk h1
  simpa using this

theorem chunkHeader_length_le {i total : Nat} (hi : i < 10 ^ 19) (ht : total < 10 ^ 19) :
    (chunkHeader i total).length ≤ 43 := by
  have h1 := natDigits_length_le hi (by norm_num)
  have h2 := natDigits_length_le ht (by norm_num)
  simp only [chunkHeader, List.length_append, List.length_cons, List.length_nil]
  omega

theorem formatChunk_length_le {i total : Nat} (c : List Char)
    (hh : (chunkHeader i total).length ≤ MAX_MESSAGE_LENGTH) :
    (formatChunk i total c).length ≤ MAX_MESSAGE_LENGTH := by
  by_cases h1 : 1 < total
  · simp only [formatChunk, if_pos h1]
    split
    · simp only [List.length_append, List.length_take]
      omega
    · rename_i hng
      exact Nat.le_of_not_lt hng
  · simp only [formatChunk, if_neg h1]
    split
    · simp only [List.length_append, List.length_take]
      omega
    · rename_i hng
      exact Nat.le_of_not_lt hng

theorem formatChunk_truncate {i total : Nat} (c : List Char) (h1 : 1 < total)
    (h2 : MAX_MESSAGE_LENGTH < (chunkHeader i total ++ c).length) :
    formatChunk i total c =
      chunkHeader i total ++ c.take (MAX_MESSAGE_LENGTH - (chunkHeader i total).length) := by
  simp only [formatChunk, if_pos h1]
  rw [if_pos h2]

theorem sendLoop_calls_spec (httpOk : Nat → Bool) (total : Nat) (pm : Option (List Char)) :
    ∀ (chunks : List (List Char)) (i0 : Nat) (call : TgCall),
      call ∈ (sendLoop httpOk total pm i0 chunks).1 →
      ∃ idx c, idx < chunks.length ∧ chunks[idx]? = some c ∧
        call = ⟨formatChunk (i0 + idx + 1) total c, pm⟩ := by
  intro chunks
  induction chunks with
  | nil =>
    intro i0 call hmem
    simp [sendLoop] at hmem
  | cons c rest ih =>
    intro i0 call hmem
    rw [sendLoop] at hmem
    by_cases hok : httpOk i0
    · rw [if_pos hok] at hmem
      simp only [List.mem_cons] at hmem
      rcases hmem with rfl | hmem
      · exact ⟨0, c, by simp, by simp, by simp⟩
      · obtain ⟨idx, c', hidx, hget, rfl⟩ := ih (i0 + 1) call hmem
        refine ⟨idx + 1, c', by simpa using hidx, by simpa using hget, ?_⟩
        congr 2
        omega
    · rw [if_neg hok] at hmem
      simp only [List.mem_cons, List.not_mem_nil, or_false] at hmem
      subst hmem
      exact ⟨0, c, by simp, by simp, by simp⟩

/-- C4: every dispatched chunk (header plus content) has at most 4096
characters, under the machine bound that a Rust string holds at most
`2 ^ 63` bytes (hence characters); and when header + content would exceed
the limit, the dispatcher keeps the header intact and truncates only the
content, the result fitting the limit. -/
theorem dispatched_length_le_limit :
    (∀ (httpOk : Nat → Bool) (text : List Char) (pm : Option (List Char))
        (r : List TgCall × Option SendErr),
        text.length ≤ 2 ^ 63 →
        send_to_telegram_internal httpOk text pm = some r →
        ∀ call ∈ r.1, call.text.length ≤ MAX_MESSAGE_LENGTH) ∧
    (∀ (i total : Nat) (c : List Char), 1 < total →
        (chunkHeader i total).length ≤ MAX_MESSAGE_LENGTH →
        MAX_MESSAGE_LENGTH < (chunkHeader i total ++ c).length →
        formatChunk i total c =
          chunkHeader i total ++
            c.take (MAX_MESSAGE_LENGTH - (chunkHeader i total).length) ∧
        (formatChunk i total c).length ≤ MAX_MESSAGE_LENGTH) := by
  constructor
  · intro httpOk text pm r hlen h call hmem
    rw [send_to_telegram_internal] at h
    by_cases ht : (trimChars text).isEmpty
    · rw [if_pos ht] at h
      simp only [Option.some.injEq] at h
      subst h
      simp at hmem
    · rw [if_neg ht] at h
      by_cases hle : text.length ≤ MAX_MESSAGE_LENGTH
      · rw [if_pos hle] at h
        by_cases hok : httpOk 0
        · rw [if_pos hok] at h
          simp only [Option.some.injEq] at h
          subst h
          simp only [List.mem_singleton] at hmem
          subst hmem
          exact hle
        · rw [if_neg hok] at h
          simp only [Option.some.injEq] at h
          subst h
          simp only [List.mem_singleton] at hmem
          subst hmem
          exact hle
      · rw [if_neg hle] at h
        rcases hs : sendChunks text with _ | chunks
        · rw [hs] at h
          simp at h
        · rw [hs] at h
          simp only [Option.some.injEq] at h
          subst h
          obtain ⟨idx, c, hidx, hget, rfl⟩ :=
            sendLoop_calls_spec httpOk chunks.length pm chunks 0 call hmem
          have htot : chunks.length ≤ text.length := by
            have hjoin := sendChunks_flatten hs
            have hle' := length_le_flatten_length (sendChunks_ne_nil hs)
            rwa [hjoin] at hle'
          have hpow : (2 : Nat) ^ 63 < 10 ^ 19 := by norm_num
          have hhdr : (chunkHeader (0 + idx + 1) chunks.length).length ≤ 43 :=
            chunkHeader_length_le (by omega) (by omega)
          exact formatChunk_length_le c (by rw [MAX_MESSAGE_LENGTH]; omega)
  · intro i total c h1 hh h2
    exact ⟨formatChunk_truncate c h1 h2, formatChunk_length_le c hh⟩

/-- Witness for C4 at a short text (single call) and at a 4090-character
chunk whose header forces truncation. -/
theorem dispatched_length_le_limit_witness :
    (∀ call ∈ (([⟨"hi".data, none⟩], none) : List TgCall × Option SendErr).1,
        call.text.length ≤ MAX_MESSAGE_LENGTH) ∧
    (formatChunk 1 2 (List.replicate 4090 'a') =
      chunkHeader 1 2 ++
        (List.replicate 4090 'a').take (MAX_MESSAGE_LENGTH - (chunkHeader 1 2).length) ∧
     (formatChunk 1 2 (List.replicate 4090 'a')).length ≤ MAX_MESSAGE_LENGTH) := by
  constructor
  · exact dispatched_length_le_limit.1 (fun _ => true) ("hi".data) none
      ([⟨"hi".data, none⟩], none) (by norm_num) (by rfl)
  · refine dispatched_length_le_limit.2 1 2 (List.replicate 4090 'a') (by norm_num)
      (by decide) ?_
    have hdr7 : (chunkHeader 1 2).length = 7 := by decide
    simp only [List.length_append, List.length_replicate, hdr7, MAX_MESSAGE_LENGTH]
    omega

theorem dropWhile_replicate_of_neg {p : Char → Bool} {c : Char} (hc : p c = false)
    (n : Nat) : (List.replicate n c).dropWhile p = List.replicate n c := by
  cases n with
  | zero => rfl
  | succ m =>
    rw [List.replicate_succ, List.dropWhile_cons, hc]
    rfl

theorem trimChars_replicate {c : Char} (hc : rustIsWhitespace c = false) (n : Nat) :
    trimChars (List.replicate n c) = List.replicate n c := by
  rw [trimChars, dropWhile_replicate_of_neg hc, List.reverse_replicate,
    dropWhile_replicate_of_neg hc, List.reverse_replicate]

theorem c10_searchStart : searchStartOf c10text = 11788 := by
  have h1 : c10text.take MAX_MESSAGE_LENGTH = List.replicate 4096 '€' := by
    rw [c10text, List.take_replicate]
    norm_num [MAX_MESSAGE_LENGTH]
  have hmbp : maxBytePosOf c10text = 12288 := by
    rw [maxBytePosOf, h1, utf8Len_replicate]
    norm_num [show ('€' : Char).utf8Size = 3 from by decide]
  rw [searchStartOf, hmbp]
  norm_num

theorem c10text_isEmpty : c10text.isEmpty = false := by
  rw [c10text, show (4097 : Nat) = 4096 + 1 from by norm_num, List.replicate_succ]
  rfl

theorem c10text_length : c10text.length = 4097 := by
  rw [c10text, List.length_replicate]

theorem splitStepIdx_c10 : splitStepIdx c10text = none := by
  have hb : byteToCharIdx c10text (searchStartOf c10text) = none := by
    rw [c10_searchStart, c10text]
    apply byteToCharIdx_replicate_not_dvd
    rw [show ('€' : Char).utf8Size = 3 from by decide]
    decide
  rw [splitStepIdx, hb]

theorem sendChunks_c10 : sendChunks c10text = none := by
  rw [sendChunks]
  rw [dif_neg (by rw [c10text_isEmpty]; exact Bool.false_ne_true)]
  rw [if_neg (by rw [c10text_length]; norm_num [MAX_MESSAGE_LENGTH])]
  split
  · rfl
  · rename_i j hj
    rw [splitStepIdx_c10] at hj
    cases hj

/-- C10 (refuting totality): on the 4097-character text of three-byte
characters `'€'`, the window start `max_byte_pos - 500 = 11788` is not a
character boundary, so the byte slice `remaining[search_start..]` panics
(modelled as `none`): the chunk-splitting computation of
`send_to_telegram_internal` is not total over Unicode texts. -/
theorem split_panics_on_multibyte :
    send_to_telegram_internal (fun _ => true) c10text none = none ∧
    splitStepIdx c10text = none ∧ c10text.length = 4097 := by
  refine ⟨?_, splitStepIdx_c10, c10text_length⟩
  rw [send_to_telegram_internal]
  rw [if_neg (by
    rw [c10text, trimChars_replicate (by decide), show (4097 : Nat) = 4096 + 1 from by norm_num,
      List.replicate_succ]
    intro h
    rw [List.isEmpty_cons] at h
    cases h)]
  rw [if_neg (by rw [c10text_length]; norm_num [MAX_MESSAGE_LENGTH])]
  split
  · rfl
  · rename_i chunks hc
    rw [sendChunks_c10] at hc
    cases hc

theorem replicate_isEmpty_false {n : Nat} (hn : 0 < n) (c : Char) :
    (List.replicate n c).isEmpty = false := by
  match n, hn with
  | m + 1, _ =>
    rw [List.replicate_succ]
    rfl

theorem splitStepIdx_eq {remaining : List Char} {k : Nat}
    (hk : byteToCharIdx remaining (searchStartOf remaining) = some k) :
    splitStepIdx remaining =
      match rfindByte (fun c => c == '\n') (windowOf remaining k) with
      | some pos => byteToCharIdx remaining (searchStartOf remaining + pos + 1)
      | none =>
        match rfindByte rustIsWhitespace (windowOf remaining k) with
        | some pos => byteToCharIdx remaining (searchStartOf remaining + pos + 1)
        | none => byteToCharIdx remaining (maxBytePosOf remaining) := by
  rw [splitStepIdx, hk]

theorem splitStepIdx_no_break {remaining : List Char} {k : Nat}
    (hk : byteToCharIdx remaining (searchStartOf remaining) = some k)
    (hn : rfindByte (fun c => c == '\n') (windowOf remaining k) = none)
    (hw : rfindByte rustIsWhitespace (windowOf remaining k) = none) :
    splitStepIdx remaining = byteToCharIdx remaining (maxBytePosOf remaining) := by
  rw [splitStepIdx_eq hk, hn, hw]

theorem splitStepIdx_replicate_a {n : Nat} (hn : MAX_MESSAGE_LENGTH < n) :
    splitStepIdx (List.replicate n 'a') = some MAX_MESSAGE_LENGTH := by
  have hMAX : MAX_MESSAGE_LENGTH = 4096 := rfl
  have hsz : ('a' : Char).utf8Size = 1 := by decide
  have htake : (List.replicate n 'a').take MAX_MESSAGE_LENGTH =
      List.replicate MAX_MESSAGE_LENGTH 'a' := by
    rw [List.take_replicate]
    congr 1
    omega
  have hmbp : maxBytePosOf (List.replicate n 'a') = MAX_MESSAGE_LENGTH := by
    rw [maxBytePosOf, htake, utf8Len_replicate, hsz, Nat.mul_one]
  have hss : searchStartOf (List.replicate n 'a') = 3596 := by
    rw [searchStartOf, hmbp, hMAX]
    norm_num
  have hb : byteToCharIdx (List.replicate n 'a')
      (searchStartOf (List.replicate n 'a')) = some 3596 := by
    rw [hss]
    exact byteToCharIdx_replicate_one hsz (by omega)
  have hwin : windowOf (List.replicate n 'a') 3596 = List.replicate 500 'a' := by
    rw [windowOf, htake, List.drop_replicate, hMAX]
  rw [splitStepIdx_no_break hb
    (by rw [hwin]; exact rfindByte_replicate_none (by decide) 500)
    (by rw [hwin]; exact rfindByte_replicate_none (by decide) 500), hmbp]
  exact byteToCharIdx_replicate_one hsz (by omega)

theorem sendChunks_a1 : sendChunks (List.replicate 1 'a') = some [List.replicate 1 'a'] := by
  rw [sendChunks]
  rfl

theorem sendChunks_a4097 :
    sendChunks (List.replicate 4097 'a') =
      some [List.replicate 4096 'a', List.replicate 1 'a'] := by
  have hMAX : MAX_MESSAGE_LENGTH = 4096 := rfl
  rw [sendChunks]
  rw [dif_neg (by rw [replicate_isEmpty_false (by norm_num)]; exact Bool.false_ne_true)]
  rw [if_neg (by rw [List.length_replicate, hMAX]; omega)]
  split
  · rename_i hj
    rw [splitStepIdx_replicate_a (by norm_num [MAX_MESSAGE_LENGTH])] at hj
    cases hj
  · rename_i j hj
    rw [splitStepIdx_replicate_a (by norm_num [MAX_MESSAGE_LENGTH])] at hj
    cases hj
    rw [List.take_replicate, List.drop_replicate, hMAX]
    have e1 : min 4096 4097 = 4096 := by norm_num
    have e2 : 4097 - 4096 = 1 := by norm_num
    rw [e1, e2, sendChunks_a1]
    rfl

theorem sendChunks_a8193 :
    sendChunks (List.replicate 8193 'a') =
      some [List.replicate 4096 'a', List.replicate 4096 'a', List.replicate 1 'a'] := by
  have hMAX : MAX_MESSAGE_LENGTH = 4096 := rfl
  rw [sendChunks]
  rw [dif_neg (by rw [replicate_isEmpty_false (by norm_num)]; exact Bool.false_ne_true)]
  rw [if_neg (by rw [List.length_replicate, hMAX]; omega)]
  split
  · rename_i hj
    rw [splitStepIdx_replicate_a (by norm_num [MAX_MESSAGE_LENGTH])] at hj
    cases hj
  · rename_i j hj
    rw [splitStepIdx_replicate_a (by norm_num [MAX_MESSAGE_LENGTH])] at hj
    cases hj
    rw [List.take_replicate, List.drop_replicate, hMAX]
    have e1 : min 4096 8193 = 4096 := by norm_num
    have e2 : 8193 - 4096 = 4097 := by norm_num
    rw [e1, e2, sendChunks_a4097]
    rfl

theorem sendLoop_nil (httpOk : Nat → Bool) (total : Nat) (pm : Option (List Char))
    (i : Nat) : sendLoop httpOk total pm i [] = ([], none) := rfl

theorem sendLoop_cons {httpOk : Nat → Bool} (total : Nat) (pm : Option (List Char))
    {i : Nat} (c : List Char) (rest : List (List Char)) (h : httpOk i = true) :
    sendLoop httpOk total pm i (c :: rest) =
      (⟨formatChunk (i + 1) total c, pm⟩ :: (sendLoop httpOk total pm (i + 1) rest).1,
        (sendLoop httpOk total pm (i + 1) rest).2) := by
  rw [sendLoop, if_pos h]

theorem c1_calls :
    send_to_telegram_internal (fun _ => true) (List.replicate 8193 'a') none =
      some ([⟨formatChunk 1 3 (List.replicate 4096 'a'), none⟩,
             ⟨formatChunk 2 3 (List.replicate 4096 'a'), none⟩,
             ⟨formatChunk 3 3 (List.replicate 1 'a'), none⟩], none) := by
  rw [send_to_telegram_internal]
  rw [if_neg (by
    rw [trimChars_replicate (by decide), replicate_isEmpty_false (by norm_num)]
    exact Bool.false_ne_true)]
  rw [if_neg (by rw [List.length_replicate]; norm_num [MAX_MESSAGE_LENGTH])]
  split
  · rename_i hc
    rw [sendChunks_a8193] at hc
    cases hc
  · rename_i chunks hc
    rw [sendChunks_a8193] at hc
    cases hc
    rw [sendLoop_cons _ _ _ _ rfl, sendLoop_cons _ _ _ _ rfl, sendLoop_cons _ _ _ _ rfl,
      sendLoop_nil]
    rfl

/-- C1 (amended): the splitting loop is lossless — its chunks concatenate
to the original text — and the dispatched content portion of a chunk is
the chunk itself, except when header + content exceeds the 4096 limit, in
which case it is the chunk truncated to `4096 - header length` characters
(the truncated tail characters are dropped, not re-sent). -/
theorem split_chunks_concat :
    (∀ (t : List Char) (cs : List (List Char)), sendChunks t = some cs → cs.flatten = t) ∧
    (∀ (total i : Nat) (c : List Char), 1 < total →
        stripIdxHeader total i (formatChunk (i + 1) total c) =
          if MAX_MESSAGE_LENGTH < (chunkHeader (i + 1) total ++ c).length then
            c.take (MAX_MESSAGE_LENGTH - (chunkHeader (i + 1) total).length)
          else c) := by
  constructor
  · intro t cs h
    exact sendChunks_flatten h
  · intro total i c h1
    rw [stripIdxHeader, if_pos h1]
    by_cases h2 : MAX_MESSAGE_LENGTH < (chunkHeader (i + 1) total ++ c).length
    · rw [formatChunk_truncate c h1 h2, if_pos h2, List.drop_left]
    · rw [if_neg h2]
      have hnt : formatChunk (i + 1) total c = chunkHeader (i + 1) total ++ c := by
        simp only [formatChunk, if_pos h1]
        rw [if_neg h2]
      rw [hnt, List.drop_left]

/-- Witness for C1 at a short split and at an unformatted short chunk. -/
theorem split_chunks_concat_witness :
    ([("hi".data)]).flatten = "hi".data ∧
    stripIdxHeader 2 0 (formatChunk 1 2 ['x']) =
      (if MAX_MESSAGE_LENGTH < (chunkHeader 1 2 ++ ['x']).length then
        (['x'] : List Char).take (MAX_MESSAGE_LENGTH - (chunkHeader 1 2).length)
      else ['x']) := by
  constructor
  · exact split_chunks_concat.1 ("hi".data) [("hi".data)] (by rw [sendChunks]; rfl)
  · exact split_chunks_concat.2 2 0 ['x'] (by norm_num)

/-- C1 (counterexample): for 8193 repetitions of `'a'` the three dispatched
chunks carry `4089 + 4089 + 1 = 8179` content characters — truncation to
make room for the `"[i/3]\n\n"` headers drops 14 characters — so the
concatenation of the dispatched content portions is not the original
text. -/
theorem dispatched_concat_cex :
    dispatchedJoin (List.replicate 8193 'a') ≠ some (List.replicate 8193 'a') := by
  have hdr13 : (chunkHeader 1 3).length = 7 := by decide
  have hdr23 : (chunkHeader 2 3).length = 7 := by decide
  have hMAX : MAX_MESSAGE_LENGTH = 4096 := rfl
  have hf1 : stripIdxHeader 3 0 (formatChunk 1 3 (List.replicate 4096 'a')) =
      List.replicate 4089 'a' := by
    rw [stripIdxHeader, if_pos (by norm_num)]
    rw [formatChunk_truncate _ (by norm_num)
      (by rw [List.length_append, List.length_replicate, hdr13, hMAX]; omega)]
    rw [List.drop_left, List.take_replicate, hdr13, hMAX]
    norm_num
  have hf2 : stripIdxHeader 3 1 (formatChunk 2 3 (List.replicate 4096 'a')) =
      List.replicate 4089 'a' := by
    rw [stripIdxHeader, if_pos (by norm_num)]
    rw [formatChunk_truncate _ (by norm_num)
      (by rw [List.length_append, List.length_replicate, hdr23, hMAX]; omega)]
    rw [List.drop_left, List.take_replicate, hdr23, hMAX]
    norm_num
  have hf3 : stripIdxHeader 3 2 (formatChunk 3 3 ['a']) = ['a'] := by decide
  rw [dispatchedJoin, c1_calls]
  intro h
  simp only [Option.map_some', Option.some.injEq] at h
  simp only [stripAllHeaders, List.length_cons, List.length_nil] at h
  norm_num at h
  rw [hf1, hf2, hf3] at h
  have hlen := congrArg List.length h
  simp only [List.flatten_cons, List.flatten_nil, List.length_append,
    List.length_replicate, List.length_cons, List.length_nil] at hlen
  omega

theorem c3text_take4096 :
    c3text.take 4096 = List.replicate 3600 'a' ++ '\n' :: List.replicate 495 'é' := by
  have hta := @List.take_append Char (List.replicate 3600 'a')
    ('\n' :: (List.replicate 495 'é' ++ List.replicate 2 'b')) 496
  rw [List.length_replicate] at hta
  rw [c3text, show (4096 : Nat) = 3600 + 496 from by norm_num, hta]
  rw [show (496 : Nat) = 495 + 1 from rfl, List.take_succ_cons]
  rw [List.take_append_of_le_length (by rw [List.length_replicate])]
  rw [List.take_replicate]
  norm_num

theorem c3text_length : c3text.length = 4098 := by
  rw [c3text]
  simp only [List.length_append, List.length_cons, List.length_replicate]

theorem c3text_mbp : maxBytePosOf c3text = 4591 := by
  rw [maxBytePosOf, show MAX_MESSAGE_LENGTH = 4096 from rfl, c3text_take4096,
    utf8Len_append, utf8Len_cons, utf8Len_replicate, utf8Len_replicate,
    show ('a' : Char).utf8Size = 1 from by decide,
    show ('\n' : Char).utf8Size = 1 from by decide,
    show ('é' : Char).utf8Size = 2 from by decide]

theorem c3text_searchStart : searchStartOf c3text = 4091 := by
  rw [searchStartOf, c3text_mbp]
  norm_num

theorem c3text_take3846 :
    c3text.take 3846 = List.replicate 3600 'a' ++ '\n' :: List.replicate 245 'é' := by
  have hta := @List.take_append Char (List.replicate 3600 'a')
    ('\n' :: (List.replicate 495 'é' ++ List.replicate 2 'b')) 246
  rw [List.length_replicate] at hta
  rw [c3text, show (3846 : Nat) = 3600 + 246 from by norm_num, hta]
  rw [show (246 : Nat) = 245 + 1 from rfl, List.take_succ_cons]
  rw [List.take_append_of_le_length (by rw [List.length_replicate]; norm_num)]
  rw [List.take_replicate]
  norm_num

theorem c3text_boundary : byteToCharIdx c3text (searchStartOf c3text) = some 3846 := by
  rw [c3text_searchStart]
  have h1 : utf8Len (c3text.take 3846) = 4091 := by
    rw [c3text_take3846, utf8Len_append, utf8Len_cons, utf8Len_replicate, utf8Len_replicate,
      show ('a' : Char).utf8Size = 1 from by decide,
      show ('\n' : Char).utf8Size = 1 from by decide,
      show ('é' : Char).utf8Size = 2 from by decide]
  have h2 := byteToCharIdx_complete (l := c3text) (j := 3846) (by rw [c3text_length]; omega)
  rwa [h1] at h2

theorem c3text_window : windowOf c3text 3846 = List.replicate 250 'é' := by
  rw [windowOf, show MAX_MESSAGE_LENGTH = 4096 from rfl, c3text_take4096]
  have hda := @List.drop_append Char (List.replicate 3600 'a')
    ('\n' :: List.replicate 495 'é') 246
  rw [List.length_replicate] at hda
  rw [show (3846 : Nat) = 3600 + 246 from by norm_num, hda]
  rw [show (246 : Nat) = 245 + 1 from rfl, List.drop_succ_cons, List.drop_replicate]

theorem splitStepIdx_c3text : splitStepIdx c3text = some 4096 := by
  rw [splitStepIdx_no_break c3text_boundary
    (by rw [c3text_window]; exact rfindByte_replicate_none (by decide) 250)
    (by rw [c3text_window]; exact rfindByte_replicate_none (by decide) 250)]
  have h1 : utf8Len (c3text.take 4096) = 4591 := by
    rw [show (4096 : Nat) = MAX_MESSAGE_LENGTH from rfl]
    exact c3text_mbp
  have h2 := byteToCharIdx_complete (l := c3text) (j := 4096) (by rw [c3text_length]; omega)
  rw [h1] at h2
  rw [c3text_mbp, h2]

theorem claimSplitIdx_c3text : claimSplitIdx c3text = some 3601 := by
  rw [claimSplitIdx]
  rw [if_neg (by rw [c3text_length]; norm_num [MAX_MESSAGE_LENGTH])]
  rw [show MAX_MESSAGE_LENGTH = 4096 from rfl]
  rw [show c3text.take 4096 = List.replicate 3600 'a' ++ '\n' :: List.replicate 495 'é'
    from c3text_take4096]
  rw [show (4096 - 500 : Nat) = 3596 from by norm_num]
  have hdropA : (List.replicate 3600 'a' ++ '\n' :: List.replicate 495 'é').drop 3596 =
      List.replicate 4 'a' ++ '\n' :: List.replicate 495 'é' := by
    rw [List.drop_append_of_le_length (by rw [List.length_replicate]; norm_num)]
    rw [List.drop_replicate]
  rw [hdropA]
  have hin : lastIdxWhere (fun c => c == '\n') ('\n' :: List.replicate 495 'é') = some 0 := by
    rw [lastIdxWhere, lastIdxWhere_replicate_none (by decide)]
    rfl
  rw [lastIdxWhere_append, hin]
  rfl

/-- C3 (counterexample): on `c3text` (a newline 496 characters but 991
bytes before the 4096-character offset, then only two-byte non-whitespace
characters), the code splits at character 4096 — the newline lies outside
its 500-byte window — while the claim's 500-character window contains the
newline and demands a split at character 3601. -/
theorem split_window_bytes_cex :
    splitStepIdx c3text = some 4096 ∧ claimSplitIdx c3text = some 3601 :=
  ⟨splitStepIdx_c3text, claimSplitIdx_c3text⟩

theorem splitStepIdx_newline {remaining : List Char} {k pos : Nat}
    (hk : byteToCharIdx remaining (searchStartOf remaining) = some k)
    (hn : rfindByte (fun c => c == '\n') (windowOf remaining k) = some pos) :
    splitStepIdx remaining =
      byteToCharIdx remaining (searchStartOf remaining + pos + 1) := by
  rw [splitStepIdx_eq hk, hn]

theorem splitStepIdx_ws {remaining : List Char} {k pos : Nat}
    (hk : byteToCharIdx remaining (searchStartOf remaining) = some k)
    (hn : rfindByte (fun c => c == '\n') (windowOf remaining k) = none)
    (hw : rfindByte rustIsWhitespace (windowOf remaining k) = some pos) :
    splitStepIdx remaining =
      byteToCharIdx remaining (searchStartOf remaining + pos + 1) := by
  rw [splitStepIdx_eq hk, hn, hw]

/-- C3 (amended): for text longer than 4096 characters, when the split
iteration returns an index `j` (no panic), `j` is characterized as
follows.  The window is the slice of the first 4096 characters whose byte
offsets lie within the 500 BYTES (not characters) preceding the
4096-character byte offset, its start being the character index `k` of
that byte offset.  The split is just after the last newline of the window
if one exists; otherwise just after the last whitespace character of the
window — which is then necessarily a single-byte character, since the
code adds one byte to the whitespace position; otherwise exactly at the
4096th-character offset. -/
theorem split_point_characterization (t : List Char) (j : Nat)
    (hlen : MAX_MESSAGE_LENGTH < t.length) (hj : splitStepIdx t = some j) :
    ∃ k, byteToCharIdx t (searchStartOf t) = some k ∧
      ((∃ iw, (windowOf t k)[iw]? = some '\n' ∧
          (∀ i' c', iw < i' → (windowOf t k)[i']? = some c' → c' ≠ '\n') ∧
          j = k + iw + 1) ∨
       ((∀ c ∈ windowOf t k, c ≠ '\n') ∧
        ∃ iw c, (windowOf t k)[iw]? = some c ∧ rustIsWhitespace c = true ∧
          c.utf8Size = 1 ∧
          (∀ i' c', iw < i' → (windowOf t k)[i']? = some c' →
            rustIsWhitespace c' = false) ∧
          j = k + iw + 1) ∨
       ((∀ c ∈ windowOf t k, c ≠ '\n' ∧ rustIsWhitespace c = false) ∧
        j = MAX_MESSAGE_LENGTH)) := by
  rcases hk : byteToCharIdx t (searchStartOf t) with _ | k
  · rw [splitStepIdx, hk] at hj
    exact Option.noConfusion hj
  · refine ⟨k, rfl, ?_⟩
    obtain ⟨hkle, hkbytes⟩ := byteToCharIdx_sound hk
    have hmax_le : searchStartOf t ≤ maxBytePosOf t := by
      rw [searchStartOf]
      omega
    have hk4096 : k ≤ MAX_MESSAGE_LENGTH := by
      by_contra hgt
      have hstr := utf8Len_take_strict t (show MAX_MESSAGE_LENGTH < k by omega) hkle
      rw [hkbytes] at hstr
      rw [show utf8Len (t.take MAX_MESSAGE_LENGTH) = maxBytePosOf t from rfl] at hstr
      omega
    have hwinlen : (windowOf t k).length = MAX_MESSAGE_LENGTH - k := by
      rw [windowOf, List.length_drop, List.length_take]
      omega
    have hgetwin : ∀ {iw : Nat} {c : Char}, (windowOf t k)[iw]? = some c →
        t[k + iw]? = some c ∧ iw < (windowOf t k).length := by
      intro iw c hget
      have hlt : iw < (windowOf t k).length := by
        by_contra hge
        rw [List.getElem?_eq_none_iff.mpr (by omega)] at hget
        cases hget
      refine ⟨?_, hlt⟩
      rw [windowOf, List.getElem?_drop] at hget
      rwa [List.getElem?_take_of_lt (by omega)] at hget
    have hwtake : ∀ iw, iw ≤ (windowOf t k).length →
        utf8Len (t.take (k + iw)) =
          searchStartOf t + utf8Len ((windowOf t k).take iw) := by
      intro iw hiw
      have e1 : t.take (k + iw) = (t.take MAX_MESSAGE_LENGTH).take (k + iw) := by
        rw [List.take_take]
        congr 1
        omega
      have e2 : (t.take MAX_MESSAGE_LENGTH).take k = t.take k := by
        rw [List.take_take]
        congr 1
        omega
      rw [e1, List.take_add, e2, utf8Len_append, hkbytes, windowOf]
    rcases hrn : rfindByte (fun c => c == '\n') (windowOf t k) with _ | pos
    · have hno_nl : ∀ c ∈ windowOf t k, c ≠ '\n' := by
        intro c hc
        have := rfindByte_eq_none.mp hrn c hc
        simpa using this
      rcases hrw : rfindByte rustIsWhitespace (windowOf t k) with _ | pos
      · rw [splitStepIdx_no_break hk hrn hrw] at hj
        right
        right
        have hcomp := byteToCharIdx_complete (l := t) (j := MAX_MESSAGE_LENGTH)
          (by omega)
        rw [show utf8Len (t.take MAX_MESSAGE_LENGTH) = maxBytePosOf t from rfl] at hcomp
        rw [hcomp] at hj
        cases hj
        exact ⟨fun c hc => ⟨hno_nl c hc, rfindByte_eq_none.mp hrw c hc⟩, rfl⟩
      · rw [splitStepIdx_ws hk hrn hrw] at hj
        right
        left
        obtain ⟨iw, c, hget, hpc, hposlen, hmaxw⟩ := rfindByte_spec hrw
        obtain ⟨hgetT, hiwlt⟩ := hgetwin hget
        obtain ⟨hjle, hjbytes⟩ := byteToCharIdx_sound hj
        have h1 : utf8Len (t.take (k + iw)) = searchStartOf t + pos := by
          rw [hwtake iw (by omega)]
          congr 1
        have hsucc := utf8Len_take_succ hgetT
        have hszpos := utf8Size_pos c
        have hj_gt : k + iw < j := by
          by_contra hle'
          have hm := utf8Len_take_mono t (show j ≤ k + iw by omega)
          omega
        have hsz1 : c.utf8Size = 1 := by
          by_contra hne
          have hm := utf8Len_take_mono t (show k + iw + 1 ≤ j by omega)
          omega
        have hj_eq : j = k + iw + 1 := by
          by_contra hne
          have hstr := utf8Len_take_strict t (show k + iw + 1 < j by omega) hjle
          omega
        exact ⟨hno_nl, iw, c, hget, hpc, hsz1,
          fun i' c' hlt hget' => hmaxw i' c' hlt hget', hj_eq⟩
    · rw [splitStepIdx_newline hk hrn] at hj
      left
      obtain ⟨iw, c, hget, hpc, hposlen, hmaxn⟩ := rfindByte_spec hrn
      have hc : c = '\n' := by simpa using hpc
      subst hc
      obtain ⟨hgetT, hiwlt⟩ := hgetwin hget
      have h1 : utf8Len (t.take (k + iw)) = searchStartOf t + pos := by
        rw [hwtake iw (by omega)]
        congr 1
      have h2 : utf8Len (t.take (k + iw + 1)) = searchStartOf t + pos + 1 := by
        rw [utf8Len_take_succ hgetT, h1,
          show ('\n' : Char).utf8Size = 1 from by decide]
      have hcomp := byteToCharIdx_complete (l := t) (j := k + iw + 1) (by omega)
      rw [h2] at hcomp
      rw [hcomp] at hj
      cases hj
      refine ⟨iw, hget, ?_, rfl⟩
      intro i' c' hlt hget'
      have := hmaxn i' c' hlt hget'
      simpa using this

/-- Witness for C3 at 8193 repetitions of `'a'` and split index 4096. -/
theorem split_point_characterization_witness :
    ∃ k, byteToCharIdx (List.replicate 8193 'a')
        (searchStartOf (List.replicate 8193 'a')) = some k ∧
      ((∃ iw, (windowOf (List.replicate 8193 'a') k)[iw]? = some '\n' ∧
          (∀ i' c', iw < i' →
            (windowOf (List.replicate 8193 'a') k)[i']? = some c' → c' ≠ '\n') ∧
          4096 = k + iw + 1) ∨
       ((∀ c ∈ windowOf (List.replicate 8193 'a') k, c ≠ '\n') ∧
        ∃ iw c, (windowOf (List.replicate 8193 'a') k)[iw]? = some c ∧
          rustIsWhitespace c = true ∧ c.utf8Size = 1 ∧
          (∀ i' c', iw < i' →
            (windowOf (List.replicate 8193 'a') k)[i']? = some c' →
            rustIsWhitespace c' = false) ∧
          4096 = k + iw + 1) ∨
       ((∀ c ∈ windowOf (List.replicate 8193 'a') k, c ≠ '\n' ∧
          rustIsWhitespace c = false) ∧
        4096 = MAX_MESSAGE_LENGTH)) :=
  split_point_characterization (List.replicate 8193 'a') 4096
    (by rw [List.length_replicate]; norm_num [MAX_MESSAGE_LENGTH])
    (splitStepIdx_replicate_a (by norm_num [MAX_MESSAGE_LENGTH]))


theorem splitOnNl_ne_nil (b : List Char) : splitOnNl b ≠ [] := by
  cases b with
  | nil => simp [splitOnNl]
  | cons c cs =>
    rw [splitOnNl]
    split
    · simp
    · split <;> simp

theorem trimChars_append_ws {c : Char} (hc : rustIsWhitespace c = true)
    (l : List Char) : trimChars (l ++ [c]) = trimChars l := by
  rw [trimChars, trimChars, List.dropWhile_append]
  by_cases he : (l.dropWhile rustIsWhitespace).isEmpty
  · rw [if_pos he]
    have hd : l.dropWhile rustIsWhitespace = [] := List.isEmpty_iff.mp he
    rw [hd, show [c].dropWhile rustIsWhitespace = [] from by
      rw [List.dropWhile_cons, hc, if_pos rfl]
      rfl]
  · rw [if_neg he]
    rw [List.reverse_append, show ([c] : List Char).reverse = [c] from rfl,
      List.singleton_append, List.dropWhile_cons, hc, if_pos rfl]

theorem trimChars_stripCr (l : List Char) : trimChars (stripCr l) = trimChars l := by
  rw [stripCr]
  split
  · rename_i hlast
    have hne : l ≠ [] := by
      intro h
      subst h
      simp at hlast
    have hg : l.getLast hne = '\r' := by
      have h1 := List.getLast?_eq_getLast l hne
      rw [hlast] at h1
      exact ((Option.some.injEq _ _).mp h1).symm
    calc trimChars l.dropLast
        = trimChars (l.dropLast ++ ['\r']) := (trimChars_append_ws (by decide) _).symm
      _ = trimChars l := by
          conv_lhs => rw [← hg, List.dropLast_concat_getLast hne]
  · rfl

theorem linesRust_filter_eq (b : List Char) :
    ((linesRust b).map trimChars).filter (fun l => !l.isEmpty) =
      ((splitOnNl b).map trimChars).filter (fun l => !l.isEmpty) := by
  have hne := splitOnNl_ne_nil b
  have hL := List.getLast?_eq_getLast (splitOnNl b) hne
  have hsegs : (splitOnNl b).dropLast ++ [(splitOnNl b).getLast hne] = splitOnNl b :=
    List.dropLast_concat_getLast hne
  have hcomp : trimChars ∘ stripCr = trimChars :=
    funext fun l => trimChars_stripCr l
  simp only [linesRust, hL, Option.getD_some]
  by_cases hLe : ((splitOnNl b).getLast hne).isEmpty
  · have hLnil : (splitOnNl b).getLast hne = [] := List.isEmpty_iff.mp hLe
    rw [if_pos (by rw [hLnil]; rfl)]
    conv_rhs => rw [← hsegs]
    simp only [List.append_nil, List.map_append, List.filter_append, List.map_map, hcomp,
      hLnil]
    simp [trimChars]
  · rw [if_neg (by rw [Bool.not_eq_true] at hLe; rw [hLe]; exact Bool.false_ne_true)]
    conv_rhs => rw [← hsegs]
    simp only [List.map_append, List.filter_append, List.map_map, hcomp]

/-- C9 (amended): for every message the external MIME parser parses, the
extractor returns, when the chosen body is non-empty, the body normalized
per the spec's rule (split on line breaks, trim each line, discard lines
that become empty, rejoin with single newlines), prefixed with
`"Subject: <subject>\n\n"` exactly when the subject is non-empty; when the
chosen body is empty the result text is empty even if a subject is
present. -/
theorem extractor_normalization (mp : List Nat → Option ParsedMsg)
    (ul : List Nat → List Char) (emailData : List Nat) (msg : ParsedMsg)
    (h : mp emailData = some msg) :
    extract_text_from_email mp ul emailData =
      (if (chosenBody msg).isEmpty then []
       else if (msg.subject.getD []).isEmpty then specNormalize (chosenBody msg)
       else "Subject: ".data ++ msg.subject.getD [] ++
         '\n' :: '\n' :: specNormalize (chosenBody msg),
       contentTypeTag msg) := by
  have heq : cleanedBodyOf (chosenBody msg) = specNormalize (chosenBody msg) := by
    rw [cleanedBodyOf, specNormalize, linesRust_filter_eq]
  simp only [extract_text_from_email, h]
  cases hb : (chosenBody msg).isEmpty
  · cases hs : (msg.subject.getD []).isEmpty
    · simp [hb, hs, heq]
    · simp [hb, hs, heq]
  · simp [hb]

/-- Witness for C9 at the parsed one-line message with empty subject. -/
theorem extractor_normalization_witness :
    extract_text_from_email c2mime (fun _ => []) (bytesOf "Hello\r\n") =
      (if (chosenBody helloMsg).isEmpty then []
       else if (helloMsg.subject.getD []).isEmpty then specNormalize (chosenBody helloMsg)
       else "Subject: ".data ++ helloMsg.subject.getD [] ++
         '\n' :: '\n' :: specNormalize (chosenBody helloMsg),
       contentTypeTag helloMsg) :=
  extractor_normalization c2mime (fun _ => []) (bytesOf "Hello\r\n") helloMsg (by rfl)

/-- C9 (counterexample): a successfully parsed message with subject `"s"`
and empty bodies produces the empty text with no `"Subject:"` framing,
while the claim demands `"Subject: s\n\n"`. -/
theorem extractor_empty_body_cex :
    extract_text_from_email c9mime (fun _ => []) [] = ([], none) ∧
    "Subject: ".data ++ "s".data ++ '\n' :: '\n' :: specNormalize [] ≠ ([] : List Char) := by
  constructor
  · rfl
  · decide

theorem runLoop_next {o : Oracles} {st : SessionState} {line : List Nat}
    {st' : SessionState} {resps : List (Nat × List Char)} {calls : List TgCall}
    (h : sessionStep o st line = .next st' resps calls) (rest : List (List Nat)) :
    runLoop o st (line :: rest) =
      (resps ++ (runLoop o st' rest).1, calls ++ (runLoop o st' rest).2) := by
  rw [runLoop, h]

theorem session_extract_hello {o : Oracles}
    (h5 : o.mimeParse (bytesOf "Hello\r\n") = some helloMsg) :
    extract_text_from_email o.mimeParse o.utf8Lossy (bytesOf "Hello\r\n") =
      ("Hello".data, none) := by
  rw [extract_text_from_email, h5]
  rfl

theorem session_send_hello (o : Oracles) :
    send_to_telegram_internal o.httpOk
      ("From: ".data ++ "x@y".data ++ "\nTo: ".data ++ "z@w".data ++
        '\n' :: '\n' :: "Hello".data) none =
      some ([⟨"From: x@y\nTo: z@w\n\nHello".data, none⟩],
        if o.httpOk 0 then none else some (SendErr.apiError 0)) := by
  rw [send_to_telegram_internal, if_neg (by decide), if_pos (by decide)]
  cases o.httpOk 0 <;> rfl

theorem session_process_hello {o : Oracles}
    (h5 : o.mimeParse (bytesOf "Hello\r\n") = some helloMsg) :
    processMessage o ⟨some ("x@y".data), some ("z@w".data), true, bytesOf "Hello\r\n"⟩ =
      some [⟨"From: x@y\nTo: z@w\n\nHello".data, none⟩] := by
  simp only [processMessage]
  rw [session_extract_hello h5, session_send_hello o]
  rfl

/-- C2 (amended): in the end-to-end session HELO a, MAIL FROM x@y, RCPT TO
z@w, DATA, body line Hello, terminator — with the external command decoder
and MIME parser behaving as specified — the responses are, in order,
220 250 250 250 354 250, and exactly one outbound API call is issued whose
text is `"From: x@y\nTo: z@w\n\nHello"` (the session prepends the envelope
as `From:`/`To:` lines) with no parse-mode field. -/
theorem session_end_to_end (o : Oracles)
    (h1 : o.parseReq (bytesOf "HELO a\r\n") = some (.helo ("a".data)))
    (h2 : o.parseReq (bytesOf "MAIL FROM:<x@y>\r\n") = some (.mail ("x@y".data)))
    (h3 : o.parseReq (bytesOf "RCPT TO:<z@w>\r\n") = some (.rcpt ("z@w".data)))
    (h4 : o.parseReq (bytesOf "DATA\r\n") = some .data)
    (h5 : o.mimeParse (bytesOf "Hello\r\n") = some helloMsg) :
    (runSession o c2lines).1.map Prod.fst = [220, 250, 250, 250, 354, 250] ∧
    (runSession o c2lines).2 = [⟨"From: x@y\nTo: z@w\n\nHello".data, none⟩] := by
  have s1 : sessionStep o initialState (bytesOf "HELO a\r\n") =
      .next initialState [(250, "Hello ".data ++ "a".data)] [] := by
    rw [sessionStep, if_neg (show ¬ initialState.inData = true from Bool.false_ne_true), h1]
    rfl
  have s2 : sessionStep o initialState (bytesOf "MAIL FROM:<x@y>\r\n") =
      .next ⟨some ("x@y".data), none, false, []⟩ [(250, "OK".data)] [] := by
    rw [sessionStep, if_neg (show ¬ initialState.inData = true from Bool.false_ne_true), h2]
    rfl
  have s3 : sessionStep o ⟨some ("x@y".data), none, false, []⟩ (bytesOf "RCPT TO:<z@w>\r\n") =
      .next ⟨some ("x@y".data), some ("z@w".data), false, []⟩ [(250, "OK".data)] [] := by
    rw [sessionStep, if_neg (show ¬ (⟨some ("x@y".data), none, false, []⟩ :
      SessionState).inData = true from Bool.false_ne_true), h3]
    rfl
  have s4 : sessionStep o ⟨some ("x@y".data), some ("z@w".data), false, []⟩
      (bytesOf "DATA\r\n") =
      .next ⟨some ("x@y".data), some ("z@w".data), true, []⟩
        [(354, "End data with <CR><LF>.<CR><LF>".data)] [] := by
    rw [sessionStep, if_neg (show ¬ (⟨some ("x@y".data), some ("z@w".data), false, []⟩ :
      SessionState).inData = true from Bool.false_ne_true), h4]
    rfl
  have s5 : sessionStep o ⟨some ("x@y".data), some ("z@w".data), true, []⟩
      (bytesOf "Hello\r\n") =
      .next ⟨some ("x@y".data), some ("z@w".data), true, bytesOf "Hello\r\n"⟩ [] [] := by
    rw [sessionStep, if_pos rfl, if_neg (by decide)]
    rfl
  have s6 : sessionStep o ⟨some ("x@y".data), some ("z@w".data), true, bytesOf "Hello\r\n"⟩
      (bytesOf ".\r\n") =
      .next ⟨none, none, false, []⟩ [(250, "OK".data)]
        [⟨"From: x@y\nTo: z@w\n\nHello".data, none⟩] := by
    rw [sessionStep, if_pos rfl, if_pos (by decide), session_process_hello h5]
  have e1 : runLoop o initialState c2lines =
      ([(250, "Hello ".data ++ "a".data), (250, "OK".data), (250, "OK".data),
        (354, "End data with <CR><LF>.<CR><LF>".data), (250, "OK".data)],
       [⟨"From: x@y\nTo: z@w\n\nHello".data, none⟩]) := by
    rw [c2lines, runLoop_next s1, runLoop_next s2, runLoop_next s3, runLoop_next s4,
      runLoop_next s5, runLoop_next s6]
    rfl
  constructor
  · simp only [runSession, e1]
    rfl
  · simp only [runSession, e1]

/-- Witness for C2 with the concrete decoder, MIME and HTTP oracles. -/
theorem session_end_to_end_witness :
    (runSession c2oracles c2lines).1.map Prod.fst = [220, 250, 250, 250, 354, 250] ∧
    (runSession c2oracles c2lines).2 = [⟨"From: x@y\nTo: z@w\n\nHello".data, none⟩] :=
  session_end_to_end c2oracles (by rfl) (by rfl) (by rfl) (by rfl) (by rfl)

/-- C2 (counterexample): in the end-to-end session the single outbound
call's text is not `"Hello"` — the envelope is prepended. -/
theorem session_end_to_end_cex :
    (runSession c2oracles c2lines).2 ≠ [⟨"Hello".data, none⟩] := by
  decide
